import Mathlib

/-!
Verification of `scripts/consul-scripting-helper.py` against its design
specification.

The Python program talks to an external Consul store.  We embed each
command as a deterministic interpreter driven by a *script*: a list of
responses that the store (and, for `locked_action`, the wrapped action)
returns to the successive calls the program makes.  The interpreter
records every store call it issues as an event, so theorems can speak
about the calls made, their arguments and their order.  Loops that the
program runs forever are given fuel (or are bounded by the script); a
run that exhausts its fuel or script is `stuck`, which no claim is about.

Byte-string values are modelled as `String` (the program compares values
byte-for-byte after UTF-8 encoding, which coincides with `String`
equality).  Durations are modelled in tenths of a second as `Nat`: the
source computes `session_ttl * 0.8` on the integral TTLs it is invoked
with (e.g. 10 seconds), which is exact and equals `ttl * 8 / 10` in
deciseconds.

The file is organised as definitions first (all commands), then the
theorems.
-/

/-! ## Shared data model -/

/-- Transient store errors of the source: `requests.exceptions.ConnectionError`
and `consul.ConsulException`.  Every `except` clause of the program
distinguishes exactly these two from everything else. -/
inductive StoreErr : Type
  | connErr
  | consulErr
deriving DecidableEq, Repr

/-- Python exceptions that can cross `locked_action`: transient store errors
(caught and retried), `Exception`s the program itself raises (fatal protocol
violations, carrying their message), and any other exception raised by the
wrapped action `f` (re-raised by the bare `except: raise`). -/
inductive PyErr : Type
  | transient (e : StoreErr)
  | fatal (msg : String)
  | other
deriving DecidableEq, Repr

/-- KV record as `locked_action` and the wait commands read it: the fields
`Flags`, `Session` (present iff some session holds the key) and `Value`.
`ModifyIndex` travels separately as the first component of a `get` result,
mirroring `index, data = c.kv.get(...)`. -/
structure KVRec : Type where
  flags : Nat
  session : Option Nat
  value : String
deriving DecidableEq, Repr

/-- Reserved lock flags constant of the source (`lockFlagValue`), identical to
the one used by `consul lock`. -/
def lockFlagValue : Nat := 0x2ddccbc058a50c18

/-- Message of the `Exception` raised when the lock key carries foreign flags
(source: "Existing key does not match lock use"). -/
def lockMismatchMsg : String := "Existing key does not match lock use"

/-- Message of the `Exception` raised when the CAS-guarded lock deletion
reports false (source: "lock deletion failed; perhaps an operator or health
check took the lock way from us"). -/
def lockDeleteFailedMsg : String := "lock deletion failed"

/-! ## waitUntilValue -/

/-- Response of one `c.kv.get(key, index=index)` call inside
`waitUntilValue`: either a transient error or `(index, data)` where `data`
is absent (`None`) or a record. -/
abbrev VResp : Type := Except StoreErr (Nat × Option KVRec)

/-- Embedding of `waitUntilValue`, driven by the list of successive `get`
responses.  Returns `some n` when the loop breaks after consuming `n`
responses, `none` when the script is exhausted first (the Python loop would
keep waiting).  Branch structure follows the source: a transient error is
caught and retried; `data is None` continues; with no target value the
existence of the key breaks the loop; otherwise the loop breaks exactly when
the stored value equals the target byte-for-byte. -/
def waitUntilValue (target : Option String) : List VResp → Option Nat
  | [] => none
  | r :: rest =>
    match r with
    | .error _ => (waitUntilValue target rest).map (· + 1)
    | .ok (_, none) => (waitUntilValue target rest).map (· + 1)
    | .ok (_, some rec) =>
      match target with
      | none => some 1
      | some t => if rec.value = t then some 1 else (waitUntilValue target rest).map (· + 1)

/-- Predicate of the specification for the value wait: the read found a
record, and the target value is unset or the record's value equals the
target, compared as raw bytes. -/
def specValueReached (target : Option String) (r : VResp) : Bool :=
  match r with
  | .ok (_, some rec) =>
    match target with
    | none => true
    | some t => rec.value = t
  | _ => false

/-! ## counterIncrement -/

/-- Decimal value of a list of digit characters, most significant first. -/
def decDigitsVal (ds : List Char) : Nat :=
  ds.foldl (fun acc c => acc * 10 + (c.toNat - '0'.toNat)) 0

/-- Surrounding-space stripping used by `pyIntParse`. -/
def stripSpaces (cs : List Char) : List Char :=
  ((cs.dropWhile (· = ' ')).reverse.dropWhile (· = ' ')).reverse

/-- Model of the Python built-in `int()` applied to the stored byte string:
optional surrounding whitespace, an optional sign, then a nonempty run of
decimal digits; anything else raises `ValueError` (here: `none`).  (Python
also accepts digit-group underscores and non-ASCII digits; no claim depends
on those, and the program itself only ever stores canonical decimals.) -/
def pyIntParse (s : String) : Option Int :=
  match stripSpaces s.toList with
  | [] => none
  | '-' :: ds =>
    if ds ≠ [] ∧ ds.all (·.isDigit) then some (-(decDigitsVal ds : Int)) else none
  | '+' :: ds =>
    if ds ≠ [] ∧ ds.all (·.isDigit) then some (decDigitsVal ds) else none
  | ds =>
    if ds.all (·.isDigit) then some (decDigitsVal ds) else none

/-- Message of the `sys.exit` call for a non-integer counter value. -/
def counterNotIntMsg (key : String) : String :=
  "key " ++ key ++ " is not an integer"

/-- Store calls made by `counterIncrement`: the read (returning the observed
index and optional value), the CAS write (value written, `cas` used, and
whether the store accepted it), and a retry delay.  `cSleep` is never
emitted by the embedding because the source loop contains no `time.sleep`;
it exists so that statements about delays between retries are expressible. -/
inductive CEvent : Type
  | cGet (idx : Nat) (v : Option String)
  | cPut (value : String) (cas : Nat) (ok : Bool)
  | cSleep
deriving DecidableEq, Repr

/-- Final state of a `counterIncrement` run. -/
inductive COutcome : Type
  | done
  | exited (msg : String)
  | stuckC
deriving DecidableEq, Repr

/-- Embedding of `counterIncrement`, driven by one script entry per
read-modify-write cycle: the `get` response `(index, value)` and the Bool the
subsequent CAS `put` would report.  Mirrors the source: absent key puts
`"1"` with `cas = 0`; present value is parsed with `int()`, a parse failure
exits fatally, otherwise `str(n+1)` is put with `cas` equal to the observed
index; a false CAS result repeats the whole cycle (with no delay, as in the
source). -/
def counterIncrementRun (key : String) :
    List ((Nat × Option String) × Bool) → COutcome × List CEvent
  | [] => (.stuckC, [])
  | ((idx, v), putOk) :: rest =>
    let evG := CEvent.cGet idx v
    match v with
    | none =>
      let evP := CEvent.cPut "1" 0 putOk
      if putOk then (.done, [evG, evP])
      else
        let r := counterIncrementRun key rest
        (r.1, evG :: evP :: r.2)
    | some str =>
      match pyIntParse str with
      | none => (.exited (counterNotIntMsg key), [evG])
      | some n =>
        let evP := CEvent.cPut (toString (n + 1)) idx putOk
        if putOk then (.done, [evG, evP])
        else
          let r := counterIncrementRun key rest
          (r.1, evG :: evP :: r.2)

/-- Per-cycle write discipline of `counterIncrement` as read off the event
trace: a read that found no record is immediately followed by a put of
`"1"` with `cas = 0`; a read that found a parseable integer `n` is
immediately followed by a put of the decimal of `n + 1` with `cas` equal to
the index that very read observed; a read that found an unparseable value is
the last event (the program exits before any write). -/
def counterCyclesOk : List CEvent → Bool
  | [] => true
  | .cGet _ none :: rest =>
    match rest with
    | .cPut v cas _ :: rest2 => decide (v = "1") && decide (cas = 0) && counterCyclesOk rest2
    | _ => false
  | .cGet i (some str) :: rest =>
    match pyIntParse str with
    | none => rest.isEmpty
    | some n =>
      match rest with
      | .cPut v cas _ :: rest2 =>
        decide (v = toString (n + 1)) && decide (cas = i) && counterCyclesOk rest2
      | _ => false
  | _ :: rest => counterCyclesOk rest

/-- Test for a read event that observed a present but unparseable value. -/
def isBadCounterGet : CEvent → Bool
  | .cGet _ (some v) => (pyIntParse v).isNone
  | _ => false

/-- Absence of retry delay, read off the trace: no sleep event occurs
anywhere, and every CAS write the store rejected is immediately followed by
the next cycle's read (or is the final event when the script ends while the
program is still retrying). -/
def counterNoDelay : List CEvent → Bool
  | [] => true
  | .cPut _ _ false :: rest =>
    (match rest with
     | [] => true
     | .cGet _ _ :: _ => true
     | _ => false) && counterNoDelay rest
  | .cSleep :: _ => false
  | _ :: rest => counterNoDelay rest

/-! ## waitUntilService -/

/-- A node entry of a `health.service` response: the node name and the
`ModifyIndex` of each of its checks (the only fields the program reads). -/
structure HNode : Type where
  node : String
  checks : List Nat
deriving DecidableEq, Repr

/-- Response of one `c.health.service(service, index=index, passing=True)`
call: a transient error, or the blocking index together with the list of
passing instances. -/
abbrev HResp : Type := Except StoreErr (Nat × List HNode)

/-- Node filtering of `waitUntilService`: with `--node` set, keep only the
entries of that node. -/
def nodeFilter (nf : Option String) (ns : List HNode) : List HNode :=
  match nf with
  | none => ns
  | some nm => ns.filter (fun n => n.node = nm)

/-- Aggregate maximum check `ModifyIndex` of the source:
`max([c['ModifyIndex'] for n in nodes for c in n['Checks']] + [0])`. -/
def maxCheckModifyIndex (ns : List HNode) : Nat :=
  ((ns.map (fun n => n.checks)).flatten).foldr max 0

/-- Embedding of `waitUntilService`, driven by the list of successive
`health.service` responses and threading the baseline
`last_max_check_modify_index` exactly as the source does.  The result is
`(some m, latches)` when the call returns after a read whose (filtered)
aggregate maximum check index is `m`, or `(none, latches)` when the script
runs out first; `latches` records, in order, every value the source assigns
to `last_max_check_modify_index` inside the `if last == 0` latch.  Transient
errors restart the inner loop (resetting only the blocking index, which the
script abstracts) and keep the baseline, as in the source. -/
def waitUntilService (nf : Option String) (wfic : Bool) :
    Nat → List HResp → Option Nat × List Nat
  | _, [] => (none, [])
  | last, r :: rest =>
    match r with
    | .error _ => waitUntilService nf wfic last rest
    | .ok (_, nodes0) =>
      if wfic then
        if last = 0 ∨ maxCheckModifyIndex (nodeFilter nf nodes0) ≤ last then
          if last = 0 then
            ((waitUntilService nf wfic (maxCheckModifyIndex (nodeFilter nf nodes0)) rest).1,
              maxCheckModifyIndex (nodeFilter nf nodes0) ::
                (waitUntilService nf wfic (maxCheckModifyIndex (nodeFilter nf nodes0)) rest).2)
          else
            waitUntilService nf wfic last rest
        else
          if 0 < (nodeFilter nf nodes0).length then
            (some (maxCheckModifyIndex (nodeFilter nf nodes0)), [])
          else waitUntilService nf wfic last rest
      else
        if 0 < (nodeFilter nf nodes0).length then
          (some (maxCheckModifyIndex (nodeFilter nf nodes0)), [])
        else waitUntilService nf wfic last rest

/-- Aggregate maximum check index of the first read that completed without a
transient error, after node filtering — the "baseline value observed on the
very first read" of the claim. -/
def firstReadMax (nf : Option String) : List HResp → Option Nat
  | [] => none
  | .error _ :: rest => firstReadMax nf rest
  | .ok (_, ns) :: _ => some (maxCheckModifyIndex (nodeFilter nf ns))

/-- Script of the C6 counterexample: a first read with no passing instance
(aggregate maximum check index 0), then a read with a check at index 5, then
a read with a check at index 6. -/
def svcRelatchScript : List HResp :=
  [.ok (1, []), .ok (2, [⟨"n", [5]⟩]), .ok (3, [⟨"n", [6]⟩])]

/-- Script of the C6 witness: a first read with a check at index 5, then a
read with a check at index 6. -/
def svcGateScript : List HResp :=
  [.ok (1, [⟨"n", [5]⟩]), .ok (2, [⟨"n", [6]⟩])]

/-! ## locked_action and waitForSession -/

/-- Decidable equality for `Except`, needed to evaluate run traces and
scripts on concrete inputs. -/
instance instDecEqExcept {ε α : Type} [DecidableEq ε] [DecidableEq α] :
    DecidableEq (Except ε α) := fun x y =>
  match x, y with
  | .error a, .error b =>
    if h : a = b then isTrue (by subst h; rfl)
    else isFalse (by intro hc; injection hc; exact h (by assumption))
  | .error _, .ok _ => isFalse (by intro hc; exact Except.noConfusion hc)
  | .ok _, .error _ => isFalse (by intro hc; exact Except.noConfusion hc)
  | .ok a, .ok b =>
    if h : a = b then isTrue (by subst h; rfl)
    else isFalse (by intro hc; injection hc; exact h (by assumption))

/-- Script (oracle) for one `locked_action` run: the successive responses the
store returns to each kind of call the function makes, in the order the
function makes them.  `gets` feeds both the blocking reads of the
acquisition loop and the non-blocking acquisition-index read; `acts` gives
the outcome of each invocation of the wrapped action `f` (a result, or an
exception it raises). -/
structure LScript : Type where
  creates : List (Except StoreErr Nat)
  gets : List (Except StoreErr (Nat × Option KVRec))
  renews : List (Except StoreErr Unit)
  puts : List (Except StoreErr Bool)
  deletes : List (Except StoreErr Bool)
  acts : List (Except PyErr Nat)
deriving DecidableEq, Repr

/-- Store calls of `locked_action` (and `waitForSession`), recorded with the
arguments the source passes and the response received.  `session.destroy` is
modelled as always succeeding: the source never inspects its result, and no
claim concerns a failure of the destroy call itself. -/
inductive LEvent : Type
  | createSession (resp : Except StoreErr Nat)
  | getBlocking (idxParam : Option Nat) (wait : Option Nat)
      (resp : Except StoreErr (Nat × Option KVRec))
  | renewSession (sid : Nat) (resp : Except StoreErr Unit)
  | putAcquire (sid : Nat) (flags : Nat) (resp : Except StoreErr Bool)
  | acqIdxGet (resp : Except StoreErr (Nat × Option KVRec))
  | runAction (sid : Nat) (out : Except PyErr Nat)
  | deleteLock (cas : Nat) (resp : Except StoreErr Bool)
  | destroySession (sid : Nat)
  | sleep
deriving DecidableEq, Repr

/-- Final state of a `locked_action` run: a returned action result, a
propagated exception, or a run cut short by fuel or script exhaustion. -/
inductive LOutcome : Type
  | ret (r : Nat)
  | raised (e : PyErr)
  | stuck
deriving DecidableEq, Repr

/-- Wait timeout passed to the blocking `get`: 80 percent of the session
TTL when one is set (`session_ttl * 0.8` in the source; exact in
deciseconds for the integral TTLs used), otherwise no timeout. -/
def waitDeciseconds (ttl : Option Nat) : Option Nat :=
  ttl.map (fun t => t * 8 / 10)

/-- Result of the acquisition loop: lock acquired, an exception escaping the
loop (transient store error, or the fatal foreign-flags `Exception`), or
fuel/script exhaustion. -/
inductive AcqRes : Type
  | acquired
  | failedA (e : PyErr)
  | stuckA
deriving DecidableEq, Repr

/-- Session renewal performed right after each blocking read when a TTL is
set (`if session_ttl is not None: c.session.renew(session)`).  Returns the
renewal response (`none` when the script is exhausted), the remaining
script, and the emitted events; without a TTL no call is made. -/
def renewStep (ttl : Option Nat) (sid : Nat) (s : LScript) :
    Option (Except StoreErr Unit) × LScript × List LEvent :=
  match ttl with
  | none => (some (.ok ()), s, [])
  | some _ =>
    match s.renews with
    | [] => (none, s, [])
    | r :: rs => (some r, { s with renews := rs }, [.renewSession sid r])

/-- Embedding of the lock-acquisition loop of `locked_action` (the inner
`while not acquired`), with fuel bounding the number of iterations.  Each
iteration: blocking `get` with the last-seen index and the TTL-derived wait;
renewal when a TTL is set; on a record with foreign flags raise the fatal
mismatch `Exception`; on a record held by some session re-read with the new
index; otherwise attempt `put(..., acquire=session, flags=lockFlagValue)`,
loop on a false result.  Transient errors escape to the caller. -/
def acquireLoop (ttl : Option Nat) (sid : Nat) :
    Nat → Option Nat → LScript → AcqRes × LScript × List LEvent
  | 0, _, s => (.stuckA, s, [])
  | fuel + 1, idx, s =>
    match s.gets with
    | [] => (.stuckA, s, [])
    | g :: gs =>
      match g with
      | .error e =>
        (.failedA (.transient e), { s with gets := gs },
          [.getBlocking idx (waitDeciseconds ttl) g])
      | .ok (i, data) =>
        match renewStep ttl sid { s with gets := gs } with
        | (none, s2, evR) =>
          (.stuckA, s2, .getBlocking idx (waitDeciseconds ttl) g :: evR)
        | (some (.error e), s2, evR) =>
          (.failedA (.transient e), s2, .getBlocking idx (waitDeciseconds ttl) g :: evR)
        | (some (.ok _), s2, evR) =>
          match data with
          | some rec =>
            if rec.flags ≠ lockFlagValue then
              (.failedA (.fatal lockMismatchMsg), s2,
                .getBlocking idx (waitDeciseconds ttl) g :: evR)
            else if rec.session.isSome then
              match acquireLoop ttl sid fuel (some i) s2 with
              | (res, s3, tr) =>
                (res, s3, .getBlocking idx (waitDeciseconds ttl) g :: evR ++ tr)
            else
              match s2.puts with
              | [] => (.stuckA, s2, .getBlocking idx (waitDeciseconds ttl) g :: evR)
              | p :: ps =>
                match p with
                | .error e =>
                  (.failedA (.transient e), { s2 with puts := ps },
                    .getBlocking idx (waitDeciseconds ttl) g :: evR ++
                      [.putAcquire sid lockFlagValue p])
                | .ok true =>
                  (.acquired, { s2 with puts := ps },
                    .getBlocking idx (waitDeciseconds ttl) g :: evR ++
                      [.putAcquire sid lockFlagValue p])
                | .ok false =>
                  match acquireLoop ttl sid fuel (some i) { s2 with puts := ps } with
                  | (res, s3, tr) =>
                    (res, s3, .getBlocking idx (waitDeciseconds ttl) g :: evR ++
                      .putAcquire sid lockFlagValue p :: tr)
          | none =>
            match s2.puts with
            | [] => (.stuckA, s2, .getBlocking idx (waitDeciseconds ttl) g :: evR)
            | p :: ps =>
              match p with
              | .error e =>
                (.failedA (.transient e), { s2 with puts := ps },
                  .getBlocking idx (waitDeciseconds ttl) g :: evR ++
                    [.putAcquire sid lockFlagValue p])
              | .ok true =>
                (.acquired, { s2 with puts := ps },
                  .getBlocking idx (waitDeciseconds ttl) g :: evR ++
                    [.putAcquire sid lockFlagValue p])
              | .ok false =>
                match acquireLoop ttl sid fuel (some i) { s2 with puts := ps } with
                | (res, s3, tr) =>
                  (res, s3, .getBlocking idx (waitDeciseconds ttl) g :: evR ++
                    .putAcquire sid lockFlagValue p :: tr)

/-- Result of one iteration of the outer `while True` of `locked_action`:
return a result, swallow a transient error and retry, propagate an
exception, or run out of fuel/script. -/
inductive IterRes : Type
  | iRet (r : Nat)
  | iRetry
  | iRaise (e : PyErr)
  | iStuck
deriving DecidableEq, Repr

/-- One iteration of the outer loop of `locked_action`, mirroring the
source's `try`/`except`/`finally` semantics: create a session; run the
acquisition loop; read the acquisition index non-blockingly; run the action;
in the inner `finally`, delete the lock key with `cas` equal to the
acquisition index — a false result raises the fatal deletion `Exception`
(replacing any in-flight result or exception, as a Python `finally` raise
does) and a transient delete error likewise replaces it — then destroy the
session and clear it; in the outer handlers transient errors are swallowed
for a retry and anything else re-raises, and the outer `finally` destroys
the session exactly when it was created but not yet destroyed. -/
def oneIteration (aFuel : Nat) (ttl : Option Nat) (s : LScript) :
    IterRes × LScript × List LEvent :=
  match s.creates with
  | [] => (.iStuck, s, [])
  | c :: cs =>
    match c with
    | .error _ => (.iRetry, { s with creates := cs }, [.createSession c])
    | .ok sid =>
      match acquireLoop ttl sid aFuel none { s with creates := cs } with
      | (.stuckA, s2, evA) => (.iStuck, s2, .createSession c :: evA)
      | (.failedA (.transient _), s2, evA) =>
        (.iRetry, s2, .createSession c :: (evA ++ [.destroySession sid]))
      | (.failedA (.fatal m), s2, evA) =>
        (.iRaise (.fatal m), s2, .createSession c :: (evA ++ [.destroySession sid]))
      | (.failedA .other, s2, evA) =>
        (.iRaise .other, s2, .createSession c :: (evA ++ [.destroySession sid]))
      | (.acquired, s2, evA) =>
        match s2.gets with
        | [] => (.iStuck, s2, .createSession c :: evA)
        | g :: gs =>
          match g with
          | .error _ =>
            (.iRetry, { s2 with gets := gs },
              .createSession c :: (evA ++ [.acqIdxGet g, .destroySession sid]))
          | .ok (ai, _) =>
            match s2.acts with
            | [] =>
              (.iStuck, { s2 with gets := gs },
                .createSession c :: (evA ++ [.acqIdxGet g]))
            | a :: as2 =>
              match s2.deletes with
              | [] =>
                (.iStuck, { s2 with gets := gs, acts := as2 },
                  .createSession c :: (evA ++ [.acqIdxGet g, .runAction sid a]))
              | dl :: ds =>
                match dl with
                | .error _ =>
                  (.iRetry, { s2 with gets := gs, acts := as2, deletes := ds },
                    .createSession c :: (evA ++ [.acqIdxGet g, .runAction sid a,
                      .deleteLock ai dl, .destroySession sid]))
                | .ok false =>
                  (.iRaise (.fatal lockDeleteFailedMsg),
                    { s2 with gets := gs, acts := as2, deletes := ds },
                    .createSession c :: (evA ++ [.acqIdxGet g, .runAction sid a,
                      .deleteLock ai dl, .destroySession sid]))
                | .ok true =>
                  match a with
                  | .ok r =>
                    (.iRet r, { s2 with gets := gs, acts := as2, deletes := ds },
                      .createSession c :: (evA ++ [.acqIdxGet g, .runAction sid a,
                        .deleteLock ai dl, .destroySession sid]))
                  | .error (.transient _) =>
                    (.iRetry, { s2 with gets := gs, acts := as2, deletes := ds },
                      .createSession c :: (evA ++ [.acqIdxGet g, .runAction sid a,
                        .deleteLock ai dl, .destroySession sid]))
                  | .error (.fatal m) =>
                    (.iRaise (.fatal m), { s2 with gets := gs, acts := as2, deletes := ds },
                      .createSession c :: (evA ++ [.acqIdxGet g, .runAction sid a,
                        .deleteLock ai dl, .destroySession sid]))
                  | .error .other =>
                    (.iRaise .other, { s2 with gets := gs, acts := as2, deletes := ds },
                      .createSession c :: (evA ++ [.acqIdxGet g, .runAction sid a,
                        .deleteLock ai dl, .destroySession sid]))

/-- Embedding of `locked_action`: iterate the outer loop (bounded by
`oFuel`), sleeping 0.1 s between retry iterations as the source does at the
bottom of its `while True`. -/
def lockedActionRun (ttl : Option Nat) : Nat → Nat → LScript → LOutcome × List LEvent
  | 0, _, _ => (.stuck, [])
  | oFuel + 1, aFuel, s =>
    match oneIteration aFuel ttl s with
    | (.iRet r, _, tr) => (.ret r, tr)
    | (.iRaise e, _, tr) => (.raised e, tr)
    | (.iStuck, _, tr) => (.stuck, tr)
    | (.iRetry, s2, tr) =>
      match lockedActionRun ttl oFuel aFuel s2 with
      | (o, tr2) => (o, tr ++ .sleep :: tr2)

/-- Embedding of `waitForSession`: create a session with TTL 10, destroy it
and return; a transient error on the create is caught, the `finally` has
nothing to destroy (the session variable is still `None`), and the loop
sleeps and retries. -/
def waitForSessionRun : Nat → List (Except StoreErr Nat) → LOutcome × List LEvent
  | 0, _ => (.stuck, [])
  | _ + 1, [] => (.stuck, [])
  | fuel + 1, c :: cs =>
    match c with
    | .error _ =>
      match waitForSessionRun fuel cs with
      | (o, tr) => (o, .createSession c :: .sleep :: tr)
    | .ok sid => (.ret 0, [.createSession c, .destroySession sid])

/-- Acquisition-loop events: blocking reads, renewals and acquire puts. -/
def isAcqEv : LEvent → Bool
  | .getBlocking _ _ _ => true
  | .renewSession _ _ => true
  | .putAcquire _ _ _ => true
  | _ => false

/-- Session-creation events. -/
def isCreateEv : LEvent → Bool
  | .createSession _ => true
  | _ => false

/-- Events other than a successful acquisition-index read (those are the
anchors of the release-discipline checker). -/
def noAcqOkEv : LEvent → Bool
  | .acqIdxGet (.ok _) => false
  | _ => true

/-- Blocking read that returned a record whose flags differ from the
reserved lock constant. -/
def isBadFlagGet : LEvent → Bool
  | .getBlocking _ _ (.ok (_, some rec)) => decide (rec.flags ≠ lockFlagValue)
  | _ => false

/-- Session-destruction events. -/
def isDestroyEv : LEvent → Bool
  | .destroySession _ => true
  | _ => false

/-- Local step of the C3 checker: the condition one event imposes given the
events that follow it.  An acquire put must carry the reserved constant.  A
blocking read that returned a record with foreign flags leads — at its place
in the protocol — to the fatal mismatch error with no further store call
except the session destruction: the source renews the session *before*
inspecting the record, so when the renewal right after the offending read
raises a transient error the check is preempted and the loop retries (spec
step 6); in every other case (renewal succeeded, or no TTL so no renewal is
made) only session destructions may follow and the run raises the fatal
mismatch error. -/
def flagLocal (o : LOutcome) (e : LEvent) (rest : List LEvent) : Bool :=
  match e with
  | .putAcquire _ fl _ => decide (fl = lockFlagValue)
  | .getBlocking _ _ (.ok (_, some rec)) =>
    if rec.flags = lockFlagValue then true
    else
      match rest with
      | .renewSession _ (.error _) :: _ => true
      | .renewSession _ (.ok _) :: rest2 =>
        rest2.all isDestroyEv && decide (o = .raised (.fatal lockMismatchMsg))
      | _ => rest.all isDestroyEv && decide (o = .raised (.fatal lockMismatchMsg))
  | _ => true

/-- C3 checker: every event of the run trace satisfies its local flag
condition with respect to the events that follow it. -/
def flagDiscipline (o : LOutcome) : List LEvent → Bool
  | [] => true
  | e :: rest => flagLocal o e rest && flagDiscipline o rest

/-- Local step of the C1 checker: every successful acquisition-index read is
immediately followed by the action, which is immediately followed by the
deletion of the lock key with `cas` equal to that read's index; and a
deletion that reported false is followed only by the outer-`finally` session
destruction, the trace ends there, and the run raised the fatal deletion
error (so the failure is not retried). -/
def deleteLocal (o : LOutcome) (e : LEvent) (rest : List LEvent) : Bool :=
  match e with
  | .acqIdxGet (.ok (i, _)) =>
    match rest with
    | .runAction _ _ :: .deleteLock c (.ok false) :: rest2 =>
      decide (c = i) &&
        (match rest2 with
         | [.destroySession _] => decide (o = .raised (.fatal lockDeleteFailedMsg))
         | _ => false)
    | .runAction _ _ :: .deleteLock c _ :: _ => decide (c = i)
    | _ => false
  | _ => true

/-- C1 checker: every event of the run trace satisfies its local release
condition with respect to the events that follow it. -/
def deleteDiscipline (o : LOutcome) : List LEvent → Bool
  | [] => true
  | e :: rest => deleteLocal o e rest && deleteDiscipline o rest

/-- Helper of the C2 checker: some destruction of session `sid` occurs
before the next session creation (and before the trace ends). -/
def destroyBeforeNextCreate (sid : Nat) : List LEvent → Bool
  | [] => false
  | .destroySession j :: rest => decide (j = sid) || destroyBeforeNextCreate sid rest
  | .createSession _ :: _ => false
  | _ :: rest => destroyBeforeNextCreate sid rest

/-- C2 checker: every successfully created session is destroyed before the
next session is created and before the trace ends. -/
def sessionsClosed : List LEvent → Bool
  | [] => true
  | .createSession (.ok sid) :: rest =>
    destroyBeforeNextCreate sid rest && sessionsClosed rest
  | _ :: rest => sessionsClosed rest

/-- Local step of the C5 checker for a set TTL `t` (in deciseconds): a
blocking read must use the wait timeout `t * 8 / 10`, and when it completed
without an error the next event must be a session renewal. -/
def renewLocal (t : Nat) (e : LEvent) (rest : List LEvent) : Bool :=
  match e with
  | .getBlocking _ w resp =>
    decide (w = some (t * 8 / 10)) &&
      (match resp with
       | .ok _ =>
         (match rest with
          | .renewSession _ _ :: _ => true
          | _ => false)
       | .error _ => true)
  | _ => true

/-- C5 checker: every event of the run trace satisfies its local
renewal condition with respect to the events that follow it. -/
def renewDiscipline (t : Nat) : List LEvent → Bool
  | [] => true
  | e :: rest => renewLocal t e rest && renewDiscipline t rest

/-- Events that are not blocking reads. -/
def isNotGetEv : LEvent → Bool
  | .getBlocking _ _ _ => false
  | _ => true

/-- Detector for action-execution events. -/
def isRunActionEv : LEvent → Bool
  | .runAction _ _ => true
  | _ => false

/-- Script of a plain successful `locked_action` run with a 1-second-scale
TTL of 10 deciseconds: one acquisition read finding no record, a renewal, a
successful acquire put, the acquisition-index read, a successful action, a
successful CAS delete. -/
def lockScriptOk : LScript :=
  { creates := [.ok 1],
    gets := [.ok (5, none), .ok (7, none)],
    renews := [.ok ()],
    puts := [.ok true],
    deletes := [.ok true],
    acts := [.ok 42] }

/-- Script where the wrapped action raises `consul.ConsulException` while
holding the lock: the first cycle releases and retries, the second
succeeds. -/
def lockScriptRetry : LScript :=
  { creates := [.ok 1, .ok 2],
    gets := [.ok (5, none), .ok (6, none), .ok (8, none), .ok (9, none)],
    renews := [],
    puts := [.ok true, .ok true],
    deletes := [.ok true, .ok true],
    acts := [.error (.transient .consulErr), .ok 42] }

/-- Script where the action succeeds but the release `delete` raises a
connection error: the whole cycle — including the action — runs again. -/
def lockScriptRetryDel : LScript :=
  { creates := [.ok 1, .ok 2],
    gets := [.ok (5, none), .ok (6, none), .ok (8, none), .ok (9, none)],
    renews := [],
    puts := [.ok true, .ok true],
    deletes := [.error .connErr, .ok true],
    acts := [.ok 7, .ok 42] }

/-! ## Lock protocol mutual exclusion (multi-client model) -/

/-- Modelled from the spec: the record held at the lock key, as kept by the
external store (spec section 3, Lock key): reserved flags, the session of
the holder (here identified with the client index), and the record's modify
index. -/
structure HeldRec : Type where
  flags : Nat
  session : Option Nat
  modifyIndex : Nat
deriving DecidableEq, Repr

/-- Modelled from the spec: the store state for one lock key — the record
(absent when the key was deleted) and the next modify index the store will
assign. -/
structure LockStore : Type where
  record : Option HeldRec
  nextIndex : Nat
deriving DecidableEq, Repr

/-- Protocol phase of one `locked_action` client: still acquiring, running
the action body (holding the acquisition index it captured), or finished. -/
inductive Phase : Type
  | trying
  | running (acqIdx : Nat)
  | done
deriving DecidableEq, Repr

/-- Configuration of `n` concurrent `locked_action` clients contending for
one lock key. -/
structure LockConfig (n : Nat) : Type where
  store : LockStore
  phase : Fin n → Phase

/-- Initial configuration: no lock record, all clients acquiring. -/
def lockInit (n : Nat) : LockConfig n :=
  { store := { record := none, nextIndex := 1 }, phase := fun _ => .trying }

/-- Modelled from the spec: interleaved steps of the `locked_action` clients
against the store's session-acquire and CAS-delete semantics (spec sections
2 and 3: a `put` with `acquire` succeeds only when no session holds the
record; `delete` with `cas` succeeds only when the record's modify index
matches).  `acquire` is the successful `put(lockKey, …, acquire=session,
flags=lockFlagValue)` of the source followed by the acquisition-index read;
`acquireFail` is the same put reported false; `release` is the successful
`delete(lockKey, cas=acquired_index)`; `releaseFail` is the delete
reporting false, after which the client raises the fatal deletion error and
stops. -/
inductive LockStep (n : Nat) : LockConfig n → LockConfig n → Prop
  | acquire (cfg : LockConfig n) (i : Fin n) :
      cfg.phase i = .trying →
      (∀ r, cfg.store.record = some r → r.session = none) →
      LockStep n cfg
        { store := { record := some ⟨lockFlagValue, some i.val, cfg.store.nextIndex⟩, nextIndex := cfg.store.nextIndex + 1 },
          phase := Function.update cfg.phase i (.running cfg.store.nextIndex) }
  | acquireFail (cfg : LockConfig n) (i : Fin n) (r : HeldRec) :
      cfg.phase i = .trying → cfg.store.record = some r → r.session ≠ none →
      LockStep n cfg cfg
  | release (cfg : LockConfig n) (i : Fin n) (a : Nat) (r : HeldRec) :
      cfg.phase i = .running a → cfg.store.record = some r → r.modifyIndex = a →
      LockStep n cfg
        { store := { record := none, nextIndex := cfg.store.nextIndex },
          phase := Function.update cfg.phase i .done }
  | releaseFail (cfg : LockConfig n) (i : Fin n) (a : Nat) :
      cfg.phase i = .running a →
      (∀ r, cfg.store.record = some r → r.modifyIndex ≠ a) →
      LockStep n cfg { store := cfg.store, phase := Function.update cfg.phase i .done }

/-- Configurations reachable from the initial one by client steps. -/
inductive LockReachable (n : Nat) : LockConfig n → Prop
  | init : LockReachable n (lockInit n)
  | step {c c2 : LockConfig n} :
      LockReachable n c → LockStep n c c2 → LockReachable n c2

/-! ## Theorems: waitUntilValue (C8) -/

/-- C8: `waitUntilValue` with no target value returns as soon as the key
exists with any value; with a target value it does not return while the
stored value differs byte-for-byte from the target, and it returns
immediately if the value already matches on the first read.  Formally, the
run returns exactly after consuming the prefix up to the first response
satisfying the specification predicate (so in particular it returns on read
one when the first response already satisfies it, and never while no read
satisfied it). -/
theorem waitUntilValue_first_match (target : Option String) (s : List VResp) :
    waitUntilValue target s = (s.findIdx? (specValueReached target)).map (· + 1) := by
  induction s with
  | nil => rfl
  | cons r rest ih =>
    cases r with
    | error e =>
      simp [waitUntilValue, specValueReached, List.findIdx?_cons, ih, Option.map_map]
    | ok p =>
      obtain ⟨i, d⟩ := p
      cases d with
      | none =>
        simp [waitUntilValue, specValueReached, List.findIdx?_cons, ih, Option.map_map]
      | some rec =>
        cases target with
        | none => simp [waitUntilValue, specValueReached, List.findIdx?_cons]
        | some t =>
          by_cases hv : rec.value = t
          · simp [waitUntilValue, specValueReached, List.findIdx?_cons, hv]
          · simp [waitUntilValue, specValueReached, List.findIdx?_cons, hv, ih,
              Option.map_map]

/-! ## Theorems: counterIncrement (C7, C9) -/

/-- Every `counterIncrement` trace is empty or starts with a read event. -/
theorem counterIncrementRun_head (key : String) (s : List ((Nat × Option String) × Bool)) :
    (counterIncrementRun key s).2 = [] ∨
      ∃ i v tl, (counterIncrementRun key s).2 = CEvent.cGet i v :: tl := by
  cases s with
  | nil => left; rfl
  | cons c rest =>
    obtain ⟨⟨idx, v⟩, putOk⟩ := c
    right
    cases v with
    | none =>
      cases putOk with
      | true => exact ⟨idx, none, [CEvent.cPut "1" 0 true], rfl⟩
      | false =>
        exact ⟨idx, none, CEvent.cPut "1" 0 false :: (counterIncrementRun key rest).2, rfl⟩
    | some str =>
      cases hp : pyIntParse str with
      | none =>
        refine ⟨idx, some str, [], ?_⟩
        simp [counterIncrementRun, hp]
      | some n =>
        cases putOk with
        | true =>
          refine ⟨idx, some str, [CEvent.cPut (toString (n + 1)) idx true], ?_⟩
          simp [counterIncrementRun, hp]
        | false =>
          refine ⟨idx, some str,
            CEvent.cPut (toString (n + 1)) idx false :: (counterIncrementRun key rest).2, ?_⟩
          simp [counterIncrementRun, hp]

/-- C7: every `counterIncrement` read-modify-write cycle writes `"1"` with
`cas = 0` when the key was absent and the decimal of `n + 1` with `cas`
equal to the observed modify index when the key held an integer `n`; and a
run exits fatally if and only if some read observed a present value that
does not parse as an integer. -/
theorem counterIncrement_cycles (key : String) (s : List ((Nat × Option String) × Bool)) :
    counterCyclesOk (counterIncrementRun key s).2 = true ∧
      ((counterIncrementRun key s).1 = .exited (counterNotIntMsg key) ↔
        (counterIncrementRun key s).2.any isBadCounterGet = true) := by
  induction s with
  | nil => simp [counterIncrementRun, counterCyclesOk]
  | cons c rest ih =>
    obtain ⟨⟨idx, v⟩, putOk⟩ := c
    cases v with
    | none =>
      cases putOk with
      | true => simp [counterIncrementRun, counterCyclesOk, isBadCounterGet]
      | false =>
        simpa [counterIncrementRun, counterCyclesOk, isBadCounterGet] using ih
    | some str =>
      cases hp : pyIntParse str with
      | none =>
        simp [counterIncrementRun, hp, counterCyclesOk, isBadCounterGet, List.isEmpty]
      | some n =>
        cases putOk with
        | true => simp [counterIncrementRun, hp, counterCyclesOk, isBadCounterGet]
        | false =>
          simpa [counterIncrementRun, hp, counterCyclesOk, isBadCounterGet] using ih

/-- C9, counterexample: on a run whose first CAS write fails, the whole
cycle is retried, but there is no delay between the cycles — contrary to
the claimed "short fixed delay between full-cycle retries", the trace
contains no sleep at all between the rejected write and the next read. -/
theorem counterIncrement_retry_has_no_delay :
    counterIncrementRun "k" [((0, none), false), ((1, some "1"), true)] =
      (.done, [.cGet 0 none, .cPut "1" 0 false, .cGet 1 (some "1"), .cPut "2" 1 true]) ∧
      CEvent.cSleep ∉ (counterIncrementRun "k" [((0, none), false), ((1, some "1"), true)]).2 ∧
      ((counterIncrementRun "k" [((0, none), false), ((1, some "1"), true)]).2.filter
        (fun e => match e with | .cGet _ _ => true | _ => false)).length = 2 := by
  refine ⟨by decide, by decide, by decide⟩

/-- C9, amended: whenever the CAS write fails, the whole read-modify-write
cycle is retried indefinitely, immediately and with no delay between
full-cycle retries (the loop contains no sleep). -/
theorem counterIncrement_retries_immediately (key : String)
    (s : List ((Nat × Option String) × Bool)) :
    counterNoDelay (counterIncrementRun key s).2 = true := by
  induction s with
  | nil => simp [counterIncrementRun, counterNoDelay]
  | cons c rest ih =>
    obtain ⟨⟨idx, v⟩, putOk⟩ := c
    cases v with
    | none =>
      cases putOk with
      | true => simp [counterIncrementRun, counterNoDelay]
      | false =>
        rcases counterIncrementRun_head key rest with h | ⟨i2, v2, tl, h⟩
        · simp [counterIncrementRun, counterNoDelay, h]
        · simp only [counterIncrementRun, counterNoDelay, h]
          have h2 := ih
          rw [h] at h2
          simpa [counterNoDelay] using h2
    | some str =>
      cases hp : pyIntParse str with
      | none => simp [counterIncrementRun, hp, counterNoDelay]
      | some n =>
        cases putOk with
        | true => simp [counterIncrementRun, hp, counterNoDelay]
        | false =>
          rcases counterIncrementRun_head key rest with h | ⟨i2, v2, tl, h⟩
          · simp [counterIncrementRun, hp, counterNoDelay, h]
          · simp only [counterIncrementRun, hp, counterNoDelay, h]
            have h2 := ih
            rw [h] at h2
            simpa [counterNoDelay] using h2

/-! ## Theorems: waitUntilService (C6) -/

/-- Baseline behaviour once `last_max_check_modify_index` is nonzero: the
latch is never executed again, and the call only ever returns after a read
whose aggregate maximum check index strictly exceeds the baseline. -/
theorem waitUntilService_nonzero_base (nf : Option String) (s : List HResp) :
    ∀ last, last ≠ 0 →
      (waitUntilService nf true last s).2 = [] ∧
        ∀ m, (waitUntilService nf true last s).1 = some m → last < m := by
  induction s with
  | nil =>
    intro last h
    simp [waitUntilService]
  | cons r rest ih =>
    intro last h
    cases r with
    | error e => simpa [waitUntilService] using ih last h
    | ok p =>
      obtain ⟨i, ns⟩ := p
      by_cases hm : maxCheckModifyIndex (nodeFilter nf ns) ≤ last
      · simpa [waitUntilService, h, hm] using ih last h
      · by_cases hl : 0 < (nodeFilter nf ns).length
        · refine ⟨by simp [waitUntilService, h, hm, hl], ?_⟩
          intro m hmEq
          simp [waitUntilService, h, hm, hl] at hmEq
          omega
        · simpa [waitUntilService, h, hm, hl] using ih last h

/-- Returns of `waitUntilService` with the index gate, starting from the
zero baseline, strictly exceed the aggregate maximum of the first completed
read. -/
theorem waitUntilService_zero_ret (nf : Option String) (s : List HResp) :
    ∀ m, (waitUntilService nf true 0 s).1 = some m →
      ∃ m1, firstReadMax nf s = some m1 ∧ m1 < m := by
  induction s with
  | nil =>
    intro m hm
    simp [waitUntilService] at hm
  | cons r rest ih =>
    cases r with
    | error e =>
      intro m hm
      have hm2 : (waitUntilService nf true 0 rest).1 = some m := by
        simpa [waitUntilService] using hm
      simpa [firstReadMax] using ih m hm2
    | ok p =>
      obtain ⟨i, ns⟩ := p
      intro m hm
      by_cases hM : maxCheckModifyIndex (nodeFilter nf ns) = 0
      · have hm2 : (waitUntilService nf true 0 rest).1 = some m := by
          simpa [waitUntilService, hM] using hm
        obtain ⟨m1, hm1, hlt⟩ := ih m hm2
        exact ⟨0, by simp [firstReadMax, hM], by omega⟩
      · have hm2 : (waitUntilService nf true
            (maxCheckModifyIndex (nodeFilter nf ns)) rest).1 = some m := by
          simpa [waitUntilService] using hm
        have hnz := waitUntilService_nonzero_base nf rest
          (maxCheckModifyIndex (nodeFilter nf ns)) hM
        exact ⟨maxCheckModifyIndex (nodeFilter nf ns), by simp [firstReadMax],
          hnz.2 m hm2⟩

/-- Latch trace of `waitUntilService` starting from the zero baseline: every
latched value except possibly the final one is zero (the source re-latches
while the baseline is zero, and never after it becomes nonzero). -/
theorem waitUntilService_zero_latches (nf : Option String) (s : List HResp) :
    (waitUntilService nf true 0 s).2.dropLast.all (fun x => decide (x = 0)) = true := by
  induction s with
  | nil => simp [waitUntilService]
  | cons r rest ih =>
    cases r with
    | error e => simpa [waitUntilService] using ih
    | ok p =>
      obtain ⟨i, ns⟩ := p
      by_cases hM : maxCheckModifyIndex (nodeFilter nf ns) = 0
      · have hgoal : (waitUntilService nf true 0 (Except.ok (i, ns) :: rest)).2 =
            0 :: (waitUntilService nf true 0 rest).2 := by
          simp [waitUntilService, hM]
        rw [hgoal]
        cases htl : (waitUntilService nf true 0 rest).2 with
        | nil => simp
        | cons e tl =>
          rw [List.dropLast_cons_of_ne_nil (by simp)]
          have := ih
          rw [htl] at this
          simpa using this
      · have hz := waitUntilService_nonzero_base nf rest
          (maxCheckModifyIndex (nodeFilter nf ns)) hM
        have hgoal : (waitUntilService nf true 0 (Except.ok (i, ns) :: rest)).2 =
            [maxCheckModifyIndex (nodeFilter nf ns)] := by
          simp [waitUntilService, hz.1]
        rw [hgoal]
        simp

/-- C6, counterexample: with `wait_for_index_change` set and a first read
whose aggregate maximum check index is 0, the source executes the baseline
latch on the first read (storing 0) and then executes it again on the second
read (storing 5): the baseline is not latched exactly once on the first
observation, and it is effectively reset to a later read's value. -/
theorem waitUntilService_baseline_relatched :
    waitUntilService none true 0 svcRelatchScript = (some 6, [0, 5]) ∧
      firstReadMax none svcRelatchScript = some 0 ∧
      ([0, 5] : List Nat) ≠ [0] := by
  refine ⟨by decide, by decide, by decide⟩

/-- C6, amended: with `wait_for_index_change` set, the call returns success
only after a read whose aggregate maximum check `ModifyIndex` strictly
exceeds the value observed on the very first completed read; the baseline is
assigned on every read made while it is still zero (so all latched values
but the final one are zero) and is never changed once it is nonzero. -/
theorem waitUntilService_index_gate (nf : Option String) (s : List HResp) :
    (∀ m, (waitUntilService nf true 0 s).1 = some m →
      ∃ m1, firstReadMax nf s = some m1 ∧ m1 < m) ∧
      (waitUntilService nf true 0 s).2.dropLast.all (fun x => decide (x = 0)) = true :=
  ⟨waitUntilService_zero_ret nf s, waitUntilService_zero_latches nf s⟩

/-- Witness for the amended C6 theorem at a concrete script: the gated call
returns 6 on a run whose first read observed maximum 5, and indeed 5 < 6. -/
theorem waitUntilService_index_gate_witness :
    ∃ m1, firstReadMax none svcGateScript = some m1 ∧ m1 < 6 :=
  (waitUntilService_index_gate none svcGateScript).1 6 (by decide)

/-! ## Theorems: locked_action trace lemmas -/

/-- Renewal-step traces consist only of renewal events. -/
theorem renewStep_events (ttl : Option Nat) (sid : Nat) (s : LScript) :
    ∀ e ∈ (renewStep ttl sid s).2.2, ∃ sid2 r2, e = LEvent.renewSession sid2 r2 := by
  cases ttl with
  | none => intro e he; simp [renewStep] at he
  | some t =>
    rcases hr : s.renews with _ | ⟨r, rs⟩ <;> intro e he <;> simp [renewStep, hr] at he
    exact ⟨sid, r, he⟩

/-- Acquisition events are not session creations. -/
theorem acqEv_not_create {e : LEvent} (h : isAcqEv e = true) : isCreateEv e = false := by
  cases e <;> simp_all [isAcqEv, isCreateEv]

/-- Acquisition events are not successful acquisition-index reads. -/
theorem acqEv_noAcqOk {e : LEvent} (h : isAcqEv e = true) : noAcqOkEv e = true := by
  cases e <;> simp_all [isAcqEv, noAcqOkEv]

/-- Lift of `acqEv_not_create` to traces. -/
theorem all_notCreate_of_acq {tr : List LEvent} (h : ∀ e ∈ tr, isAcqEv e = true) :
    tr.all (fun e => !isCreateEv e) = true := by
  simp only [List.all_eq_true]
  intro e he
  simp [acqEv_not_create (h e he)]

/-- Lift of `acqEv_noAcqOk` to traces. -/
theorem all_noAcqOk_of_acq {tr : List LEvent} (h : ∀ e ∈ tr, isAcqEv e = true) :
    tr.all noAcqOkEv = true := by
  simp only [List.all_eq_true]
  intro e he
  exact acqEv_noAcqOk (h e he)

/-- Every event emitted by the acquisition loop is an acquisition event. -/
theorem acquireLoop_events (sid : Nat) :
    ∀ fuel (ttl : Option Nat) idx s, ∀ e ∈ (acquireLoop ttl sid fuel idx s).2.2,
      isAcqEv e = true := by
  intro fuel
  induction fuel with
  | zero =>
    intro ttl idx s e he
    simp [acquireLoop] at he
  | succ fuel ih =>
    intro ttl idx s e he
    rcases hg : s.gets with _ | ⟨g, gs⟩
    · simp [acquireLoop, hg] at he
    · cases g with
      | error er =>
        simp [acquireLoop, hg] at he
        simp [he, isAcqEv]
      | ok pr =>
        obtain ⟨i, data⟩ := pr
        rcases hrs : renewStep ttl sid { s with gets := gs } with ⟨ro, s2, evR⟩
        have hevR : ∀ e2 ∈ evR, isAcqEv e2 = true := by
          intro e2 he2
          have hh := renewStep_events ttl sid { s with gets := gs }
          rw [hrs] at hh
          obtain ⟨sid2, r2, hr2⟩ := hh e2 he2
          simp [hr2, isAcqEv]
        rcases ro with _ | r2
        · simp [acquireLoop, hg, hrs] at he
          rcases he with he | he
          · simp [he, isAcqEv]
          · exact hevR e he
        · cases r2 with
          | error er2 =>
            simp [acquireLoop, hg, hrs] at he
            rcases he with he | he
            · simp [he, isAcqEv]
            · exact hevR e he
          | ok u =>
            cases data with
            | some rec =>
              by_cases hf : rec.flags ≠ lockFlagValue
              · simp [acquireLoop, hg, hrs, hf] at he
                rcases he with he | he
                · simp [he, isAcqEv]
                · exact hevR e he
              · by_cases hs : rec.session.isSome
                · rcases hrec : acquireLoop ttl sid fuel (some i) s2 with ⟨res3, s3, tr3⟩
                  simp [acquireLoop, hg, hrs, hf, hs, hrec] at he
                  rcases he with he | he | he
                  · simp [he, isAcqEv]
                  · exact hevR e he
                  · have := ih ttl (some i) s2
                    rw [hrec] at this
                    exact this e he
                · rcases hp : s2.puts with _ | ⟨p, ps⟩
                  · simp [acquireLoop, hg, hrs, hf, hs, hp] at he
                    rcases he with he | he
                    · simp [he, isAcqEv]
                    · exact hevR e he
                  · cases p with
                    | error ep =>
                      simp [acquireLoop, hg, hrs, hf, hs, hp] at he
                      rcases he with he | he | he
                      · simp [he, isAcqEv]
                      · exact hevR e he
                      · simp [he, isAcqEv]
                    | ok b =>
                      cases b with
                      | true =>
                        simp [acquireLoop, hg, hrs, hf, hs, hp] at he
                        rcases he with he | he | he
                        · simp [he, isAcqEv]
                        · exact hevR e he
                        · simp [he, isAcqEv]
                      | false =>
                        rcases hrec : acquireLoop ttl sid fuel (some i) { s2 with puts := ps }
                          with ⟨res3, s3, tr3⟩
                        simp [acquireLoop, hg, hrs, hf, hs, hp, hrec] at he
                        rcases he with he | he | he | he
                        · simp [he, isAcqEv]
                        · exact hevR e he
                        · simp [he, isAcqEv]
                        · have := ih ttl (some i) { s2 with puts := ps }
                          rw [hrec] at this
                          exact this e he
            | none =>
              rcases hp : s2.puts with _ | ⟨p, ps⟩
              · simp [acquireLoop, hg, hrs, hp] at he
                rcases he with he | he
                · simp [he, isAcqEv]
                · exact hevR e he
              · cases p with
                | error ep =>
                  simp [acquireLoop, hg, hrs, hp] at he
                  rcases he with he | he | he
                  · simp [he, isAcqEv]
                  · exact hevR e he
                  · simp [he, isAcqEv]
                | ok b =>
                  cases b with
                  | true =>
                    simp [acquireLoop, hg, hrs, hp] at he
                    rcases he with he | he | he
                    · simp [he, isAcqEv]
                    · exact hevR e he
                    · simp [he, isAcqEv]
                  | false =>
                    rcases hrec : acquireLoop ttl sid fuel (some i) { s2 with puts := ps }
                      with ⟨res3, s3, tr3⟩
                    simp [acquireLoop, hg, hrs, hp, hrec] at he
                    rcases he with he | he | he | he
                    · simp [he, isAcqEv]
                    · exact hevR e he
                    · simp [he, isAcqEv]
                    · have := ih ttl (some i) { s2 with puts := ps }
                      rw [hrec] at this
                      exact this e he

/-- The acquisition loop respects the renewal discipline for a set TTL: all
blocking reads use the 80-percent wait, and every completed read is
immediately followed by the renewal call. -/
theorem acquireLoop_renew (sid t : Nat) :
    ∀ fuel idx s,
      (acquireLoop (some t) sid fuel idx s).1 ≠ .stuckA →
      renewDiscipline t (acquireLoop (some t) sid fuel idx s).2.2 = true := by
  intro fuel
  induction fuel with
  | zero =>
    intro idx s h
    simp [acquireLoop] at h
  | succ fuel ih =>
    intro idx s h
    rcases hg : s.gets with _ | ⟨g, gs⟩
    · simp [acquireLoop, hg] at h
    · cases g with
      | error er =>
        simp only [acquireLoop, hg]
        simp [renewDiscipline, renewLocal, waitDeciseconds]
      | ok pr =>
        obtain ⟨i, data⟩ := pr
        rcases hrn : s.renews with _ | ⟨r, rs⟩
        · have hrs : renewStep (some t) sid { s with gets := gs } =
              (none, { s with gets := gs }, []) := by
            simp [renewStep, hrn]
          simp [acquireLoop, hg, hrs] at h
        · have hrs : renewStep (some t) sid { s with gets := gs } =
              (some r, { s with gets := gs, renews := rs },
                [.renewSession sid r]) := by
            simp [renewStep, hrn]
          cases r with
          | error er2 =>
            simp only [acquireLoop, hg, hrs]
            simp [renewDiscipline, renewLocal, waitDeciseconds]
          | ok u =>
            cases data with
            | some rec =>
              by_cases hf : rec.flags ≠ lockFlagValue
              · simp only [acquireLoop, hg, hrs]
                simp [hf, renewDiscipline, renewLocal, waitDeciseconds]
              · push_neg at hf
                by_cases hsx : rec.session.isSome
                · rcases hrec : acquireLoop (some t) sid fuel (some i)
                    { s with gets := gs, renews := rs } with ⟨res3, s3, tr3⟩
                  simp [acquireLoop, hg, hrs] at h ⊢
                  simp [hf, hsx, hrec] at h ⊢
                  have hx := ih (some i) { s with gets := gs, renews := rs }
                  rw [hrec] at hx
                  simp [renewDiscipline, renewLocal, waitDeciseconds, hx h]
                · rcases hp : s.puts with _ | ⟨p, ps⟩
                  · simp [acquireLoop, hg, hrs] at h
                    simp [hf, hsx, hp] at h
                  · cases p with
                    | error ep =>
                      simp [acquireLoop, hg, hrs] at h ⊢
                      simp [hf, hsx, hp, renewDiscipline, renewLocal, waitDeciseconds]
                    | ok b =>
                      cases b with
                      | true =>
                        simp [acquireLoop, hg, hrs] at h ⊢
                        simp [hf, hsx, hp, renewDiscipline, renewLocal, waitDeciseconds]
                      | false =>
                        rcases hrec : acquireLoop (some t) sid fuel (some i)
                          { s with gets := gs, renews := rs, puts := ps }
                          with ⟨res3, s3, tr3⟩
                        simp [acquireLoop, hg, hrs] at h ⊢
                        simp [hf, hsx, hp, hrec] at h ⊢
                        have hx := ih (some i) { s with gets := gs, renews := rs, puts := ps }
                        rw [hrec] at hx
                        simp [renewDiscipline, renewLocal, waitDeciseconds, hx h]
            | none =>
              rcases hp : s.puts with _ | ⟨p, ps⟩
              · simp [acquireLoop, hg, hrs] at h
                simp [hp] at h
              · cases p with
                | error ep =>
                  simp [acquireLoop, hg, hrs] at h ⊢
                  simp [hp, renewDiscipline, renewLocal, waitDeciseconds]
                | ok b =>
                  cases b with
                  | true =>
                    simp [acquireLoop, hg, hrs] at h ⊢
                    simp [hp, renewDiscipline, renewLocal, waitDeciseconds]
                  | false =>
                    rcases hrec : acquireLoop (some t) sid fuel (some i)
                      { s with gets := gs, renews := rs, puts := ps }
                      with ⟨res3, s3, tr3⟩
                    simp [acquireLoop, hg, hrs] at h ⊢
                    simp [hp, hrec] at h ⊢
                    have hx := ih (some i) { s with gets := gs, renews := rs, puts := ps }
                    rw [hrec] at hx
                    simp [renewDiscipline, renewLocal, waitDeciseconds, hx h]

set_option maxHeartbeats 1000000

/-- Utility: a trace of session destructions passes the C3 checker. -/
theorem flagDiscipline_destroys (o : LOutcome) (tr : List LEvent)
    (h : tr.all isDestroyEv = true) : flagDiscipline o tr = true := by
  induction tr with
  | nil => rfl
  | cons e rest ih =>
    simp only [List.all_cons, Bool.and_eq_true] at h
    cases e <;> simp_all [flagDiscipline, flagLocal, isDestroyEv]

/-- Flag behaviour of the acquisition loop: unless it ends in the fatal
flags-mismatch error, scanning the C3 checker across its trace is the
identity (every acquire put carries the reserved constant, and every
foreign-flags read was preempted by a failed renewal and retried); when it
does end in that error, its trace followed by the session destruction passes
the checker for the mismatch outcome; and the mismatch message is the only
fatal error the loop raises. -/
theorem acquireLoop_flag (sid : Nat) :
    ∀ fuel (ttl : Option Nat) idx s,
      ((acquireLoop ttl sid fuel idx s).1 ≠ .failedA (.fatal lockMismatchMsg) →
        (acquireLoop ttl sid fuel idx s).1 ≠ .stuckA →
        ∀ o rest, flagDiscipline o ((acquireLoop ttl sid fuel idx s).2.2 ++ rest) =
          flagDiscipline o rest) ∧
      ((acquireLoop ttl sid fuel idx s).1 = .failedA (.fatal lockMismatchMsg) →
        ∀ j, flagDiscipline (.raised (.fatal lockMismatchMsg))
          ((acquireLoop ttl sid fuel idx s).2.2 ++ [.destroySession j]) = true) ∧
      (∀ m, (acquireLoop ttl sid fuel idx s).1 = .failedA (.fatal m) →
        m = lockMismatchMsg) := by
  intro fuel
  induction fuel with
  | zero =>
    intro ttl idx s
    refine ⟨fun _ h2 => absurd rfl h2, fun hf2 => ?_, fun m hm => ?_⟩
    · simp [acquireLoop] at hf2
    · simp [acquireLoop] at hm
  | succ fuel ih =>
    intro ttl idx s
    rcases hg : s.gets with _ | ⟨g, gs⟩
    · refine ⟨fun _ h2 => ?_, fun hf2 => ?_, fun m hm => ?_⟩
      · simp [acquireLoop, hg] at h2
      · simp [acquireLoop, hg] at hf2
      · simp [acquireLoop, hg] at hm
    · cases g with
      | error er =>
        refine ⟨fun _ _ o rest => ?_, fun hf2 => ?_, fun m hm => ?_⟩
        · simp [acquireLoop, hg, flagDiscipline, flagLocal]
        · simp [acquireLoop, hg] at hf2
        · simp [acquireLoop, hg] at hm
      | ok pr =>
        obtain ⟨i, data⟩ := pr
        cases ttl with
        | none =>
          have hrs : renewStep none sid { s with gets := gs } =
              (some (.ok ()), { s with gets := gs }, []) := rfl
          cases data with
          | some rec =>
            by_cases hfl : rec.flags ≠ lockFlagValue
            · refine ⟨fun h1 _ => ?_, fun _ j => ?_, fun m hm => ?_⟩
              · simp [acquireLoop, hg, hrs, hfl] at h1
              · simp [acquireLoop, hg, hrs, hfl, flagDiscipline, flagLocal, isDestroyEv]
              · simp [acquireLoop, hg, hrs, hfl] at hm
                simp [hm]
            · push_neg at hfl
              by_cases hsx : rec.session.isSome
              · rcases hrec : acquireLoop none sid fuel (some i) { s with gets := gs }
                  with ⟨res3, s3, tr3⟩
                have ihx := ih none (some i) { s with gets := gs }
                rw [hrec] at ihx
                refine ⟨fun h1 h2 o rest => ?_, fun hf2 j => ?_, fun m hm => ?_⟩
                · simp only [acquireLoop, hg, hrs] at h1 h2 ⊢
                  simp only [hfl, hsx, hrec] at h1 h2 ⊢
                  first | simp at h1 h2 | skip
                  simp [flagDiscipline, flagLocal, hfl, ihx.1 h1 h2 o rest]
                · simp only [acquireLoop, hg, hrs] at hf2 ⊢
                  simp only [hfl, hsx, hrec] at hf2 ⊢
                  first | simp at hf2 | skip
                  simp [flagDiscipline, flagLocal, hfl, ihx.2.1 hf2 j]
                · simp only [acquireLoop, hg, hrs] at hm
                  simp only [hfl, hsx, hrec] at hm
                  first | simp at hm | skip
                  exact ihx.2.2 m hm
              · rcases hp : s.puts with _ | ⟨p, ps⟩
                · refine ⟨fun _ h2 => ?_, fun hf2 => ?_, fun m hm => ?_⟩
                  · simp only [acquireLoop, hg, hrs] at h2
                    simp [hfl, hsx, hp] at h2
                  · simp only [acquireLoop, hg, hrs] at hf2
                    simp [hfl, hsx, hp] at hf2
                  · simp only [acquireLoop, hg, hrs] at hm
                    simp [hfl, hsx, hp] at hm
                · cases p with
                  | error ep =>
                    refine ⟨fun _ _ o rest => ?_, fun hf2 => ?_, fun m hm => ?_⟩
                    · simp only [acquireLoop, hg, hrs]
                      simp only [hfl, hsx, hp]
                      simp [flagDiscipline, flagLocal, hfl]
                    · simp only [acquireLoop, hg, hrs] at hf2
                      simp [hfl, hsx, hp] at hf2
                    · simp only [acquireLoop, hg, hrs] at hm
                      simp [hfl, hsx, hp] at hm
                  | ok b =>
                    cases b with
                    | true =>
                      refine ⟨fun _ _ o rest => ?_, fun hf2 => ?_, fun m hm => ?_⟩
                      · simp only [acquireLoop, hg, hrs]
                        simp only [hfl, hsx, hp]
                        simp [flagDiscipline, flagLocal, hfl]
                      · simp only [acquireLoop, hg, hrs] at hf2
                        simp [hfl, hsx, hp] at hf2
                      · simp only [acquireLoop, hg, hrs] at hm
                        simp [hfl, hsx, hp] at hm
                    | false =>
                      rcases hrec : acquireLoop none sid fuel (some i)
                        { s with gets := gs, puts := ps } with ⟨res3, s3, tr3⟩
                      have ihx := ih none (some i) { s with gets := gs, puts := ps }
                      rw [hrec] at ihx
                      refine ⟨fun h1 h2 o rest => ?_, fun hf2 j => ?_, fun m hm => ?_⟩
                      · simp only [acquireLoop, hg, hrs] at h1 h2 ⊢
                        simp only [hfl, hsx, hp, hrec] at h1 h2 ⊢
                        first | simp at h1 h2 | skip
                        simp [flagDiscipline, flagLocal, hfl, ihx.1 h1 h2 o rest]
                      · simp only [acquireLoop, hg, hrs] at hf2 ⊢
                        simp only [hfl, hsx, hp, hrec] at hf2 ⊢
                        first | simp at hf2 | skip
                        simp [flagDiscipline, flagLocal, hfl, ihx.2.1 hf2 j]
                      · simp only [acquireLoop, hg, hrs] at hm
                        simp only [hfl, hsx, hp, hrec] at hm
                        first | simp at hm | skip
                        exact ihx.2.2 m hm
          | none =>
            rcases hp : s.puts with _ | ⟨p, ps⟩
            · refine ⟨fun _ h2 => ?_, fun hf2 => ?_, fun m hm => ?_⟩
              · simp only [acquireLoop, hg, hrs] at h2
                simp [hp] at h2
              · simp only [acquireLoop, hg, hrs] at hf2
                simp [hp] at hf2
              · simp only [acquireLoop, hg, hrs] at hm
                simp [hp] at hm
            · cases p with
              | error ep =>
                refine ⟨fun _ _ o rest => ?_, fun hf2 => ?_, fun m hm => ?_⟩
                · simp only [acquireLoop, hg, hrs]
                  simp only [hp]
                  simp [flagDiscipline, flagLocal]
                · simp only [acquireLoop, hg, hrs] at hf2
                  simp [hp] at hf2
                · simp only [acquireLoop, hg, hrs] at hm
                  simp [hp] at hm
              | ok b =>
                cases b with
                | true =>
                  refine ⟨fun _ _ o rest => ?_, fun hf2 => ?_, fun m hm => ?_⟩
                  · simp only [acquireLoop, hg, hrs]
                    simp only [hp]
                    simp [flagDiscipline, flagLocal]
                  · simp only [acquireLoop, hg, hrs] at hf2
                    simp [hp] at hf2
                  · simp only [acquireLoop, hg, hrs] at hm
                    simp [hp] at hm
                | false =>
                  rcases hrec : acquireLoop none sid fuel (some i)
                    { s with gets := gs, puts := ps } with ⟨res3, s3, tr3⟩
                  have ihx := ih none (some i) { s with gets := gs, puts := ps }
                  rw [hrec] at ihx
                  refine ⟨fun h1 h2 o rest => ?_, fun hf2 j => ?_, fun m hm => ?_⟩
                  · simp only [acquireLoop, hg, hrs] at h1 h2 ⊢
                    simp only [hp, hrec] at h1 h2 ⊢
                    first | simp at h1 h2 | skip
                    simp [flagDiscipline, flagLocal, ihx.1 h1 h2 o rest]
                  · simp only [acquireLoop, hg, hrs] at hf2 ⊢
                    simp only [hp, hrec] at hf2 ⊢
                    first | simp at hf2 | skip
                    simp [flagDiscipline, flagLocal, ihx.2.1 hf2 j]
                  · simp only [acquireLoop, hg, hrs] at hm
                    simp only [hp, hrec] at hm
                    first | simp at hm | skip
                    exact ihx.2.2 m hm
        | some t =>
          rcases hrn : s.renews with _ | ⟨r, rs⟩
          · have hrs : renewStep (some t) sid { s with gets := gs } =
                (none, { s with gets := gs }, []) := by
              simp [renewStep, hrn]
            refine ⟨fun _ h2 => ?_, fun hf2 => ?_, fun m hm => ?_⟩
            · simp [acquireLoop, hg, hrs] at h2
            · simp [acquireLoop, hg, hrs] at hf2
            · simp [acquireLoop, hg, hrs] at hm
          · have hrs : renewStep (some t) sid { s with gets := gs } =
                (some r, { s with gets := gs, renews := rs },
                  [.renewSession sid r]) := by
              simp [renewStep, hrn]
            cases r with
            | error er2 =>
              refine ⟨fun _ _ o rest => ?_, fun hf2 => ?_, fun m hm => ?_⟩
              · cases data with
                | some rec =>
                  by_cases hfl : rec.flags = lockFlagValue
                  · simp [acquireLoop, hg, hrs, flagDiscipline, flagLocal, hfl]
                  · simp [acquireLoop, hg, hrs, flagDiscipline, flagLocal, hfl]
                | none => simp [acquireLoop, hg, hrs, flagDiscipline, flagLocal]
              · simp [acquireLoop, hg, hrs] at hf2
              · simp [acquireLoop, hg, hrs] at hm
            | ok u =>
              cases data with
              | some rec =>
                by_cases hfl : rec.flags ≠ lockFlagValue
                · refine ⟨fun h1 _ => ?_, fun _ j => ?_, fun m hm => ?_⟩
                  · simp [acquireLoop, hg, hrs, hfl] at h1
                  · simp [acquireLoop, hg, hrs, hfl, flagDiscipline, flagLocal,
                      isDestroyEv]
                  · simp [acquireLoop, hg, hrs, hfl] at hm
                    simp [hm]
                · push_neg at hfl
                  by_cases hsx : rec.session.isSome
                  · rcases hrec : acquireLoop (some t) sid fuel (some i)
                      { s with gets := gs, renews := rs } with ⟨res3, s3, tr3⟩
                    have ihx := ih (some t) (some i) { s with gets := gs, renews := rs }
                    rw [hrec] at ihx
                    refine ⟨fun h1 h2 o rest => ?_, fun hf2 j => ?_, fun m hm => ?_⟩
                    · simp only [acquireLoop, hg, hrs] at h1 h2 ⊢
                      simp only [hfl, hsx, hrec] at h1 h2 ⊢
                      first | simp at h1 h2 | skip
                      simp [flagDiscipline, flagLocal, hfl, ihx.1 h1 h2 o rest]
                    · simp only [acquireLoop, hg, hrs] at hf2 ⊢
                      simp only [hfl, hsx, hrec] at hf2 ⊢
                      first | simp at hf2 | skip
                      simp [flagDiscipline, flagLocal, hfl, ihx.2.1 hf2 j]
                    · simp only [acquireLoop, hg, hrs] at hm
                      simp only [hfl, hsx, hrec] at hm
                      first | simp at hm | skip
                      exact ihx.2.2 m hm
                  · rcases hp : s.puts with _ | ⟨p, ps⟩
                    · refine ⟨fun _ h2 => ?_, fun hf2 => ?_, fun m hm => ?_⟩
                      · simp only [acquireLoop, hg, hrs] at h2
                        simp [hfl, hsx, hp] at h2
                      · simp only [acquireLoop, hg, hrs] at hf2
                        simp [hfl, hsx, hp] at hf2
                      · simp only [acquireLoop, hg, hrs] at hm
                        simp [hfl, hsx, hp] at hm
                    · cases p with
                      | error ep =>
                        refine ⟨fun _ _ o rest => ?_, fun hf2 => ?_, fun m hm => ?_⟩
                        · simp only [acquireLoop, hg, hrs]
                          simp only [hfl, hsx, hp]
                          simp [flagDiscipline, flagLocal, hfl]
                        · simp only [acquireLoop, hg, hrs] at hf2
                          simp [hfl, hsx, hp] at hf2
                        · simp only [acquireLoop, hg, hrs] at hm
                          simp [hfl, hsx, hp] at hm
                      | ok b =>
                        cases b with
                        | true =>
                          refine ⟨fun _ _ o rest => ?_, fun hf2 => ?_, fun m hm => ?_⟩
                          · simp only [acquireLoop, hg, hrs]
                            simp only [hfl, hsx, hp]
                            simp [flagDiscipline, flagLocal, hfl]
                          · simp only [acquireLoop, hg, hrs] at hf2
                            simp [hfl, hsx, hp] at hf2
                          · simp only [acquireLoop, hg, hrs] at hm
                            simp [hfl, hsx, hp] at hm
                        | false =>
                          rcases hrec : acquireLoop (some t) sid fuel (some i)
                            { s with gets := gs, renews := rs, puts := ps }
                            with ⟨res3, s3, tr3⟩
                          have ihx := ih (some t) (some i)
                            { s with gets := gs, renews := rs, puts := ps }
                          rw [hrec] at ihx
                          refine ⟨fun h1 h2 o rest => ?_, fun hf2 j => ?_,
                            fun m hm => ?_⟩
                          · simp only [acquireLoop, hg, hrs] at h1 h2 ⊢
                            simp only [hfl, hsx, hp, hrec] at h1 h2 ⊢
                            first | simp at h1 h2 | skip
                            simp [flagDiscipline, flagLocal, hfl, ihx.1 h1 h2 o rest]
                          · simp only [acquireLoop, hg, hrs] at hf2 ⊢
                            simp only [hfl, hsx, hp, hrec] at hf2 ⊢
                            first | simp at hf2 | skip
                            simp [flagDiscipline, flagLocal, hfl, ihx.2.1 hf2 j]
                          · simp only [acquireLoop, hg, hrs] at hm
                            simp only [hfl, hsx, hp, hrec] at hm
                            first | simp at hm | skip
                            exact ihx.2.2 m hm
              | none =>
                rcases hp : s.puts with _ | ⟨p, ps⟩
                · refine ⟨fun _ h2 => ?_, fun hf2 => ?_, fun m hm => ?_⟩
                  · simp only [acquireLoop, hg, hrs] at h2
                    simp [hp] at h2
                  · simp only [acquireLoop, hg, hrs] at hf2
                    simp [hp] at hf2
                  · simp only [acquireLoop, hg, hrs] at hm
                    simp [hp] at hm
                · cases p with
                  | error ep =>
                    refine ⟨fun _ _ o rest => ?_, fun hf2 => ?_, fun m hm => ?_⟩
                    · simp only [acquireLoop, hg, hrs]
                      simp only [hp]
                      simp [flagDiscipline, flagLocal]
                    · simp only [acquireLoop, hg, hrs] at hf2
                      simp [hp] at hf2
                    · simp only [acquireLoop, hg, hrs] at hm
                      simp [hp] at hm
                  | ok b =>
                    cases b with
                    | true =>
                      refine ⟨fun _ _ o rest => ?_, fun hf2 => ?_, fun m hm => ?_⟩
                      · simp only [acquireLoop, hg, hrs]
                        simp only [hp]
                        simp [flagDiscipline, flagLocal]
                      · simp only [acquireLoop, hg, hrs] at hf2
                        simp [hp] at hf2
                      · simp only [acquireLoop, hg, hrs] at hm
                        simp [hp] at hm
                    | false =>
                      rcases hrec : acquireLoop (some t) sid fuel (some i)
                        { s with gets := gs, renews := rs, puts := ps }
                        with ⟨res3, s3, tr3⟩
                      have ihx := ih (some t) (some i)
                        { s with gets := gs, renews := rs, puts := ps }
                      rw [hrec] at ihx
                      refine ⟨fun h1 h2 o rest => ?_, fun hf2 j => ?_, fun m hm => ?_⟩
                      · simp only [acquireLoop, hg, hrs] at h1 h2 ⊢
                        simp only [hp, hrec] at h1 h2 ⊢
                        first | simp at h1 h2 | skip
                        simp [flagDiscipline, flagLocal, ihx.1 h1 h2 o rest]
                      · simp only [acquireLoop, hg, hrs] at hf2 ⊢
                        simp only [hp, hrec] at hf2 ⊢
                        first | simp at hf2 | skip
                        simp [flagDiscipline, flagLocal, ihx.2.1 hf2 j]
                      · simp only [acquireLoop, hg, hrs] at hm
                        simp only [hp, hrec] at hm
                        first | simp at hm | skip
                        exact ihx.2.2 m hm

/-- Scanning the C2 checker past events that are not session creations. -/
theorem sessionsClosed_append (tr1 tr2 : List LEvent)
    (h : tr1.all (fun e => !isCreateEv e) = true) :
    sessionsClosed (tr1 ++ tr2) = sessionsClosed tr2 := by
  induction tr1 with
  | nil => rfl
  | cons e rest ih =>
    simp only [List.all_cons, Bool.and_eq_true] at h
    cases e with
    | createSession resp => simp [isCreateEv] at h
    | _ => simp_all [sessionsClosed]

/-- A destruction of `sid` placed after creation-free events satisfies the
before-the-next-creation search. -/
theorem destroyBefore_append (sid : Nat) (tr1 tr2 : List LEvent)
    (h : tr1.all (fun e => !isCreateEv e) = true) :
    destroyBeforeNextCreate sid (tr1 ++ .destroySession sid :: tr2) = true := by
  induction tr1 with
  | nil => simp [destroyBeforeNextCreate]
  | cons e rest ih =>
    simp only [List.all_cons, Bool.and_eq_true] at h
    cases e with
    | createSession resp => simp [isCreateEv] at h
    | destroySession j => simp_all [destroyBeforeNextCreate]
    | _ => simp_all [destroyBeforeNextCreate]

/-- Events other than successful acquisition-index reads impose no local
release condition. -/
theorem deleteLocal_of_noAcqOk {o : LOutcome} {e : LEvent} {rest : List LEvent}
    (h : noAcqOkEv e = true) : deleteLocal o e rest = true := by
  cases e with
  | acqIdxGet resp =>
    cases resp with
    | ok p => simp [noAcqOkEv] at h
    | error er => simp [deleteLocal]
  | _ => simp [deleteLocal]

/-- Scanning the C1 checker past events that are not successful
acquisition-index reads. -/
theorem deleteDiscipline_append (o : LOutcome) (tr1 tr2 : List LEvent)
    (h : tr1.all noAcqOkEv = true) :
    deleteDiscipline o (tr1 ++ tr2) = deleteDiscipline o tr2 := by
  induction tr1 with
  | nil => rfl
  | cons e rest ih =>
    simp only [List.all_cons, Bool.and_eq_true] at h
    simp [deleteDiscipline, deleteLocal_of_noAcqOk h.1, ih h.2]

/-- Scanning the C5 checker past a prefix that satisfies it. -/
theorem renewDiscipline_append (t : Nat) (tr1 tr2 : List LEvent)
    (h : renewDiscipline t tr1 = true) :
    renewDiscipline t (tr1 ++ tr2) = renewDiscipline t tr2 := by
  induction tr1 with
  | nil => rfl
  | cons e rest ih =>
    simp only [renewDiscipline, Bool.and_eq_true] at h
    obtain ⟨hloc, hrest⟩ := h
    have hloc2 : renewLocal t e (rest ++ tr2) = true := by
      cases e with
      | getBlocking idxp w resp =>
        cases resp with
        | error er => simpa [renewLocal] using hloc
        | ok v =>
          cases rest with
          | nil => simp [renewLocal] at hloc
          | cons rh rt =>
            cases rh <;> simp_all [renewLocal]
      | _ => simp [renewLocal]
    simp [renewDiscipline, hloc2, ih hrest]

/-- Traces without blocking reads satisfy the C5 checker. -/
theorem renewDiscipline_of_noGet (t : Nat) (tr : List LEvent)
    (h : tr.all isNotGetEv = true) : renewDiscipline t tr = true := by
  induction tr with
  | nil => rfl
  | cons e rest ih =>
    simp only [List.all_cons, Bool.and_eq_true] at h
    have hloc : renewLocal t e rest = true := by
      cases e <;> simp_all [renewLocal, isNotGetEv]
    simp [renewDiscipline, hloc, ih h.2]

/-- C5 checker over a whole `locked_action` iteration block: session
creation, then the acquisition trace, then read/action/release/destruction
events that are not blocking reads. -/
theorem renewDiscipline_block (t : Nat) (evA mid : List LEvent)
    (hrA : renewDiscipline t evA = true) (hmid : mid.all isNotGetEv = true)
    (c : Except StoreErr Nat) :
    renewDiscipline t (LEvent.createSession c :: (evA ++ mid)) = true := by
  have hloc : renewLocal t (LEvent.createSession c) (evA ++ mid) = true := by
    simp [renewLocal]
  simp only [renewDiscipline, hloc, Bool.true_and]
  rw [renewDiscipline_append t evA mid hrA]
  exact renewDiscipline_of_noGet t mid hmid

/-- C2 checker over a whole `locked_action` iteration block: the session
created at the head is destroyed at the end of the block, before anything
that follows. -/
theorem sessionsClosed_block (sid : Nat) (evA mid : List LEvent)
    (hnc : evA.all (fun e => !isCreateEv e) = true)
    (hmid : mid.all (fun e => !isCreateEv e) = true) (rest : List LEvent) :
    sessionsClosed ((LEvent.createSession (.ok sid) ::
      (evA ++ (mid ++ [LEvent.destroySession sid]))) ++ rest) = sessionsClosed rest := by
  have hall : (evA ++ mid).all (fun e => !isCreateEv e) = true := by
    simp only [List.all_append, Bool.and_eq_true]
    exact ⟨hnc, hmid⟩
  have hshape : (LEvent.createSession (.ok sid) ::
      (evA ++ (mid ++ [LEvent.destroySession sid]))) ++ rest =
      LEvent.createSession (.ok sid) ::
        ((evA ++ mid) ++ (LEvent.destroySession sid :: rest)) := by
    simp
  rw [hshape]
  have h1 := destroyBefore_append sid (evA ++ mid) rest hall
  have h2 := sessionsClosed_append (evA ++ mid) (LEvent.destroySession sid :: rest) hall
  rw [List.append_assoc] at h1 h2
  simp [sessionsClosed, h1, h2]

/-- Checker behaviour of one outer-loop iteration of `locked_action`: a
non-stuck iteration block is transparent to the C2 checker and satisfies
the C5 checker for the set TTL; a retrying block is transparent to the C1
and C3 checkers; a returning or raising block satisfies the C1 and C3
checkers for the corresponding run outcome. -/
theorem oneIteration_props (aFuel : Nat) (ttl : Option Nat) (s : LScript) :
    ((oneIteration aFuel ttl s).1 ≠ .iStuck →
      (∀ rest, sessionsClosed ((oneIteration aFuel ttl s).2.2 ++ rest) =
        sessionsClosed rest) ∧
      (∀ t, ttl = some t → renewDiscipline t (oneIteration aFuel ttl s).2.2 = true)) ∧
    ((oneIteration aFuel ttl s).1 = .iRetry →
      ∀ o rest,
        deleteDiscipline o ((oneIteration aFuel ttl s).2.2 ++ rest) =
          deleteDiscipline o rest ∧
        flagDiscipline o ((oneIteration aFuel ttl s).2.2 ++ rest) =
          flagDiscipline o rest) ∧
    (∀ r0, (oneIteration aFuel ttl s).1 = .iRet r0 →
      deleteDiscipline (.ret r0) (oneIteration aFuel ttl s).2.2 = true ∧
      flagDiscipline (.ret r0) (oneIteration aFuel ttl s).2.2 = true) ∧
    (∀ e, (oneIteration aFuel ttl s).1 = .iRaise e →
      deleteDiscipline (.raised e) (oneIteration aFuel ttl s).2.2 = true ∧
      flagDiscipline (.raised e) (oneIteration aFuel ttl s).2.2 = true) := by
  rcases hc : s.creates with _ | ⟨c, cs⟩
  · exact ⟨fun h => absurd (by simp [oneIteration, hc]) h,
      fun h => by simp [oneIteration, hc] at h,
      fun r0 h => by simp [oneIteration, hc] at h,
      fun e h => by simp [oneIteration, hc] at h⟩
  · cases c with
    | error ec =>
      have hr1 : (oneIteration aFuel ttl s).1 = .iRetry := by
        simp [oneIteration, hc]
      have hr2 : (oneIteration aFuel ttl s).2.2 = [.createSession (.error ec)] := by
        simp [oneIteration, hc]
      refine ⟨fun _ => ⟨fun rest => ?_, fun t ht => ?_⟩, fun _ o rest => ⟨?_, ?_⟩,
        fun r0 h => by rw [hr1] at h; simp at h, fun e h => by rw [hr1] at h; simp at h⟩
      · rw [hr2]; simp [sessionsClosed]
      · rw [hr2]; simp [renewDiscipline, renewLocal]
      · rw [hr2]; simp [deleteDiscipline, deleteLocal]
      · rw [hr2]; simp [flagDiscipline, flagLocal]
    | ok sid =>
      rcases hA : acquireLoop ttl sid aFuel none { s with creates := cs }
        with ⟨resA, sA, evA⟩
      have hev := acquireLoop_events sid aFuel ttl none { s with creates := cs }
      rw [hA] at hev
      have hflag := acquireLoop_flag sid aFuel ttl none { s with creates := cs }
      rw [hA] at hflag
      have hnc : evA.all (fun e => !isCreateEv e) = true := all_notCreate_of_acq hev
      have hnd : evA.all noAcqOkEv = true := all_noAcqOk_of_acq hev
      cases resA with
      | stuckA =>
        have hr1 : (oneIteration aFuel ttl s).1 = .iStuck := by
          simp [oneIteration, hc, hA]
        exact ⟨fun h => absurd hr1 h, fun h => by rw [hr1] at h; simp at h,
          fun r0 h => by rw [hr1] at h; simp at h,
          fun e h => by rw [hr1] at h; simp at h⟩
      | failedA e0 =>
        have hr2 : (oneIteration aFuel ttl s).2.2 =
            .createSession (.ok sid) :: (evA ++ [.destroySession sid]) := by
          cases e0 <;> simp [oneIteration, hc, hA]
        have hsc : ∀ rest, sessionsClosed ((oneIteration aFuel ttl s).2.2 ++ rest) =
            sessionsClosed rest := by
          intro rest
          rw [hr2]
          have := sessionsClosed_block sid evA [] hnc (by simp) rest
          simpa using this
        have hrn : ∀ t, ttl = some t →
            renewDiscipline t (oneIteration aFuel ttl s).2.2 = true := by
          intro t ht
          subst ht
          have hrenew := acquireLoop_renew sid t aFuel none { s with creates := cs }
          rw [hA] at hrenew
          have hra : renewDiscipline t evA = true := hrenew (by simp)
          rw [hr2]
          exact renewDiscipline_block t evA [LEvent.destroySession sid] hra
            (by simp [isNotGetEv]) (Except.ok sid)
        cases e0 with
        | transient se =>
          have hr1 : (oneIteration aFuel ttl s).1 = .iRetry := by
            simp [oneIteration, hc, hA]
          refine ⟨fun _ => ⟨hsc, hrn⟩, fun _ o rest => ⟨?_, ?_⟩,
            fun r0 h => by rw [hr1] at h; simp at h,
            fun e h => by rw [hr1] at h; simp at h⟩
          · rw [hr2]
            have h1 := deleteDiscipline_append o evA (LEvent.destroySession sid :: rest) hnd
            simp [deleteDiscipline, deleteLocal, h1]
          · rw [hr2]
            have h2 := hflag.1 (by simp) (by simp) o (LEvent.destroySession sid :: rest)
            simp [flagDiscipline, flagLocal, h2]
        | fatal m =>
          have hmm : m = lockMismatchMsg := hflag.2.2 m (by simp)
          subst hmm
          have hr1 : (oneIteration aFuel ttl s).1 = .iRaise (.fatal lockMismatchMsg) := by
            simp [oneIteration, hc, hA]
          refine ⟨fun _ => ⟨hsc, hrn⟩, fun h => by rw [hr1] at h; simp at h,
            fun r0 h => by rw [hr1] at h; simp at h, fun e h => ?_⟩
          rw [hr1] at h
          have he : e = .fatal lockMismatchMsg := by
            cases h
            rfl
          subst he
          constructor
          · rw [hr2]
            have h1 := deleteDiscipline_append (LOutcome.raised (.fatal lockMismatchMsg))
              evA [LEvent.destroySession sid] hnd
            simp [deleteDiscipline, deleteLocal, h1]
          · rw [hr2]
            have h2 := hflag.2.1 (by simp) sid
            simp [flagDiscipline, flagLocal, h2]
        | other =>
          have hr1 : (oneIteration aFuel ttl s).1 = .iRaise .other := by
            simp [oneIteration, hc, hA]
          refine ⟨fun _ => ⟨hsc, hrn⟩, fun h => by rw [hr1] at h; simp at h,
            fun r0 h => by rw [hr1] at h; simp at h, fun e h => ?_⟩
          rw [hr1] at h
          have he : e = .other := by
            cases h
            rfl
          subst he
          constructor
          · rw [hr2]
            have h1 := deleteDiscipline_append (LOutcome.raised .other)
              evA [LEvent.destroySession sid] hnd
            simp [deleteDiscipline, deleteLocal, h1]
          · rw [hr2]
            have h2 := hflag.1 (by simp) (by simp) (LOutcome.raised .other)
              [LEvent.destroySession sid]
            simp [flagDiscipline, flagLocal, h2]
      | acquired =>
        rcases hg2 : sA.gets with _ | ⟨g, gs⟩
        · have hr1 : (oneIteration aFuel ttl s).1 = .iStuck := by
            simp [oneIteration, hc, hA, hg2]
          exact ⟨fun h => absurd hr1 h, fun h => by rw [hr1] at h; simp at h,
            fun r0 h => by rw [hr1] at h; simp at h,
            fun e h => by rw [hr1] at h; simp at h⟩
        · cases g with
          | error eg =>
            have hr1 : (oneIteration aFuel ttl s).1 = .iRetry := by
              simp [oneIteration, hc, hA, hg2]
            have hr2 : (oneIteration aFuel ttl s).2.2 =
                .createSession (.ok sid) :: (evA ++ [.acqIdxGet (.error eg),
                  .destroySession sid]) := by
              simp [oneIteration, hc, hA, hg2]
            refine ⟨fun _ => ⟨fun rest => ?_, fun t ht => ?_⟩, fun _ o rest => ⟨?_, ?_⟩,
              fun r0 h => by rw [hr1] at h; simp at h,
              fun e h => by rw [hr1] at h; simp at h⟩
            · rw [hr2]
              have := sessionsClosed_block sid evA [.acqIdxGet (.error eg)] hnc
                (by simp [isCreateEv]) rest
              simpa using this
            · subst ht
              have hrenew := acquireLoop_renew sid t aFuel none { s with creates := cs }
              rw [hA] at hrenew
              have hra : renewDiscipline t evA = true := hrenew (by simp)
              rw [hr2]
              exact renewDiscipline_block t evA
                [LEvent.acqIdxGet (.error eg), LEvent.destroySession sid] hra
                (by simp [isNotGetEv]) (Except.ok sid)
            · rw [hr2]
              have h1 := deleteDiscipline_append o evA
                (LEvent.acqIdxGet (.error eg) :: LEvent.destroySession sid :: rest) hnd
              simp [deleteDiscipline, deleteLocal, h1]
            · rw [hr2]
              have h2 := hflag.1 (by simp) (by simp) o
                (LEvent.acqIdxGet (.error eg) :: LEvent.destroySession sid :: rest)
              simp [flagDiscipline, flagLocal, h2]
          | ok pr =>
            obtain ⟨ai, d⟩ := pr
            rcases ha2 : sA.acts with _ | ⟨a, as2⟩
            · have hr1 : (oneIteration aFuel ttl s).1 = .iStuck := by
                simp [oneIteration, hc, hA, hg2, ha2]
              exact ⟨fun h => absurd hr1 h, fun h => by rw [hr1] at h; simp at h,
                fun r0 h => by rw [hr1] at h; simp at h,
                fun e h => by rw [hr1] at h; simp at h⟩
            · rcases hd2 : sA.deletes with _ | ⟨dl, ds⟩
              · have hr1 : (oneIteration aFuel ttl s).1 = .iStuck := by
                  simp [oneIteration, hc, hA, hg2, ha2, hd2]
                exact ⟨fun h => absurd hr1 h, fun h => by rw [hr1] at h; simp at h,
                  fun r0 h => by rw [hr1] at h; simp at h,
                  fun e h => by rw [hr1] at h; simp at h⟩
              · have hr2 : (oneIteration aFuel ttl s).2.2 =
                    .createSession (.ok sid) :: (evA ++ [.acqIdxGet (.ok (ai, d)),
                      .runAction sid a, .deleteLock ai dl, .destroySession sid]) := by
                  cases dl with
                  | error ed => simp [oneIteration, hc, hA, hg2, ha2, hd2]
                  | ok b =>
                    cases b with
                    | false => simp [oneIteration, hc, hA, hg2, ha2, hd2]
                    | true =>
                      cases a with
                      | ok r0 => simp [oneIteration, hc, hA, hg2, ha2, hd2]
                      | error pe =>
                        cases pe <;> simp [oneIteration, hc, hA, hg2, ha2, hd2]
                have hsc : ∀ rest, sessionsClosed ((oneIteration aFuel ttl s).2.2 ++ rest) =
                    sessionsClosed rest := by
                  intro rest
                  rw [hr2]
                  have := sessionsClosed_block sid evA
                    [.acqIdxGet (.ok (ai, d)), .runAction sid a, .deleteLock ai dl] hnc
                    (by simp [isCreateEv]) rest
                  simpa using this
                have hrn : ∀ t, ttl = some t →
                    renewDiscipline t (oneIteration aFuel ttl s).2.2 = true := by
                  intro t ht
                  subst ht
                  have hrenew := acquireLoop_renew sid t aFuel none { s with creates := cs }
                  rw [hA] at hrenew
                  have hra : renewDiscipline t evA = true := hrenew (by simp)
                  rw [hr2]
                  exact renewDiscipline_block t evA
                    [LEvent.acqIdxGet (.ok (ai, d)), LEvent.runAction sid a,
                      LEvent.deleteLock ai dl, LEvent.destroySession sid] hra
                    (by simp [isNotGetEv]) (Except.ok sid)
                have hdel : ∀ o rest, dl ≠ .ok false →
                    deleteDiscipline o ((oneIteration aFuel ttl s).2.2 ++ rest) =
                      deleteDiscipline o rest := by
                  intro o rest hdl
                  rw [hr2]
                  have h1 := deleteDiscipline_append o evA
                    (LEvent.acqIdxGet (.ok (ai, d)) :: LEvent.runAction sid a ::
                      LEvent.deleteLock ai dl :: LEvent.destroySession sid :: rest) hnd
                  cases dl with
                  | error ed => simp [deleteDiscipline, deleteLocal, h1]
                  | ok b =>
                    cases b with
                    | true => simp [deleteDiscipline, deleteLocal, h1]
                    | false => exact absurd rfl hdl
                have hflg : ∀ o rest,
                    flagDiscipline o ((oneIteration aFuel ttl s).2.2 ++ rest) =
                      flagDiscipline o rest := by
                  intro o rest
                  rw [hr2]
                  have h2 := hflag.1 (by simp) (by simp) o
                    (LEvent.acqIdxGet (.ok (ai, d)) :: LEvent.runAction sid a ::
                      LEvent.deleteLock ai dl :: LEvent.destroySession sid :: rest)
                  simp [flagDiscipline, flagLocal, h2]
                cases dl with
                | error ed =>
                  have hr1 : (oneIteration aFuel ttl s).1 = .iRetry := by
                    simp [oneIteration, hc, hA, hg2, ha2, hd2]
                  refine ⟨fun _ => ⟨hsc, hrn⟩,
                    fun _ o rest => ⟨hdel o rest (by simp), hflg o rest⟩,
                    fun r0 h => by rw [hr1] at h; simp at h,
                    fun e h => by rw [hr1] at h; simp at h⟩
                | ok b =>
                  cases b with
                  | false =>
                    have hr1 : (oneIteration aFuel ttl s).1 =
                        .iRaise (.fatal lockDeleteFailedMsg) := by
                      simp [oneIteration, hc, hA, hg2, ha2, hd2]
                    refine ⟨fun _ => ⟨hsc, hrn⟩, fun h => by rw [hr1] at h; simp at h,
                      fun r0 h => by rw [hr1] at h; simp at h, fun e h => ?_⟩
                    rw [hr1] at h
                    have he : e = .fatal lockDeleteFailedMsg := by
                      cases h
                      rfl
                    subst he
                    constructor
                    · rw [hr2]
                      have h1 := deleteDiscipline_append
                        (LOutcome.raised (.fatal lockDeleteFailedMsg)) evA
                        (LEvent.acqIdxGet (.ok (ai, d)) :: LEvent.runAction sid a ::
                          LEvent.deleteLock ai (.ok false) ::
                          [LEvent.destroySession sid]) hnd
                      simp [deleteDiscipline, deleteLocal, h1]
                    · rw [hr2]
                      have h2 := hflag.1 (by simp) (by simp)
                        (LOutcome.raised (.fatal lockDeleteFailedMsg))
                        (LEvent.acqIdxGet (.ok (ai, d)) :: LEvent.runAction sid a ::
                          LEvent.deleteLock ai (.ok false) ::
                          [LEvent.destroySession sid])
                      simp [flagDiscipline, flagLocal, h2]
                  | true =>
                    cases a with
                    | ok r0 =>
                      have hr1 : (oneIteration aFuel ttl s).1 = .iRet r0 := by
                        simp [oneIteration, hc, hA, hg2, ha2, hd2]
                      refine ⟨fun _ => ⟨hsc, hrn⟩, fun h => by rw [hr1] at h; simp at h,
                        fun r1 h => ?_, fun e h => by rw [hr1] at h; simp at h⟩
                      rw [hr1] at h
                      have he : r1 = r0 := by
                        cases h
                        rfl
                      subst he
                      constructor
                      · have := hdel (LOutcome.ret r1) [] (by simp)
                        simpa using this
                      · have := hflg (LOutcome.ret r1) []
                        simpa using this
                    | error pe =>
                      cases pe with
                      | transient se2 =>
                        have hr1 : (oneIteration aFuel ttl s).1 = .iRetry := by
                          simp [oneIteration, hc, hA, hg2, ha2, hd2]
                        refine ⟨fun _ => ⟨hsc, hrn⟩,
                          fun _ o rest => ⟨hdel o rest (by simp), hflg o rest⟩,
                          fun r0 h => by rw [hr1] at h; simp at h,
                          fun e h => by rw [hr1] at h; simp at h⟩
                      | fatal ma =>
                        have hr1 : (oneIteration aFuel ttl s).1 = .iRaise (.fatal ma) := by
                          simp [oneIteration, hc, hA, hg2, ha2, hd2]
                        refine ⟨fun _ => ⟨hsc, hrn⟩, fun h => by rw [hr1] at h; simp at h,
                          fun r0 h => by rw [hr1] at h; simp at h, fun e h => ?_⟩
                        rw [hr1] at h
                        have he : e = .fatal ma := by
                          cases h
                          rfl
                        subst he
                        constructor
                        · have := hdel (LOutcome.raised (.fatal ma)) [] (by simp)
                          simpa using this
                        · have := hflg (LOutcome.raised (.fatal ma)) []
                          simpa using this
                      | other =>
                        have hr1 : (oneIteration aFuel ttl s).1 = .iRaise .other := by
                          simp [oneIteration, hc, hA, hg2, ha2, hd2]
                        refine ⟨fun _ => ⟨hsc, hrn⟩, fun h => by rw [hr1] at h; simp at h,
                          fun r0 h => by rw [hr1] at h; simp at h, fun e h => ?_⟩
                        rw [hr1] at h
                        have he : e = .other := by
                          cases h
                          rfl
                        subst he
                        constructor
                        · have := hdel (LOutcome.raised .other) [] (by simp)
                          simpa using this
                        · have := hflg (LOutcome.raised .other) []
                          simpa using this

/-- Checker behaviour of a whole `locked_action` run: every non-stuck run
closes all sessions it opens, obeys the CAS release discipline for its
outcome, obeys the flag discipline for its outcome, and obeys the renewal
discipline for the set TTL. -/
theorem lockedActionRun_props (ttl : Option Nat) :
    ∀ oF aF s,
      (lockedActionRun ttl oF aF s).1 ≠ .stuck →
        sessionsClosed (lockedActionRun ttl oF aF s).2 = true ∧
        deleteDiscipline (lockedActionRun ttl oF aF s).1
          (lockedActionRun ttl oF aF s).2 = true ∧
        flagDiscipline (lockedActionRun ttl oF aF s).1
          (lockedActionRun ttl oF aF s).2 = true ∧
        (∀ t, ttl = some t → renewDiscipline t (lockedActionRun ttl oF aF s).2 = true) := by
  intro oF
  induction oF with
  | zero =>
    intro aF s h
    simp [lockedActionRun] at h
  | succ oF ih =>
    intro aF s h
    have hp := oneIteration_props aF ttl s
    rcases hio : oneIteration aF ttl s with ⟨r, s2, tr⟩
    rw [hio] at hp
    cases r with
    | iStuck =>
      have : (lockedActionRun ttl (oF + 1) aF s).1 = .stuck := by
        simp [lockedActionRun, hio]
      exact absurd this h
    | iRet r0 =>
      have hrun : lockedActionRun ttl (oF + 1) aF s = (.ret r0, tr) := by
        simp [lockedActionRun, hio]
      have hns : ((IterRes.iRet r0, s2, tr) : IterRes × LScript × List LEvent).1 ≠
          IterRes.iStuck := by
        simp
      refine ⟨?_, ?_, ?_, ?_⟩
      · have := (hp.1 hns).1 []
        simpa [hrun] using this
      · have := (hp.2.2.1 r0 (by simp)).1
        simpa [hrun] using this
      · have := (hp.2.2.1 r0 (by simp)).2
        simpa [hrun] using this
      · intro t ht
        have := (hp.1 hns).2 t ht
        simpa [hrun] using this
    | iRaise e =>
      have hrun : lockedActionRun ttl (oF + 1) aF s = (.raised e, tr) := by
        simp [lockedActionRun, hio]
      have hns : ((IterRes.iRaise e, s2, tr) : IterRes × LScript × List LEvent).1 ≠
          IterRes.iStuck := by
        simp
      refine ⟨?_, ?_, ?_, ?_⟩
      · have := (hp.1 hns).1 []
        simpa [hrun] using this
      · have := (hp.2.2.2 e (by simp)).1
        simpa [hrun] using this
      · have := (hp.2.2.2 e (by simp)).2
        simpa [hrun] using this
      · intro t ht
        have := (hp.1 hns).2 t ht
        simpa [hrun] using this
    | iRetry =>
      rcases hrec : lockedActionRun ttl oF aF s2 with ⟨o2, tr2⟩
      have hrun : lockedActionRun ttl (oF + 1) aF s = (o2, tr ++ .sleep :: tr2) := by
        simp [lockedActionRun, hio, hrec]
      have ho2 : o2 ≠ .stuck := by
        intro hcon
        rw [hrun] at h
        simp [hcon] at h
      have ihx := ih aF s2
      rw [hrec] at ihx
      have ihx2 := ihx (by simpa using ho2)
      have hns : ((IterRes.iRetry, s2, tr) : IterRes × LScript × List LEvent).1 ≠
          IterRes.iStuck := by
        simp
      refine ⟨?_, ?_, ?_, ?_⟩
      · rw [hrun]
        have h1 := (hp.1 hns).1 (LEvent.sleep :: tr2)
        simp only [h1]
        simpa [sessionsClosed] using ihx2.1
      · rw [hrun]
        have h1 := (hp.2.1 (by simp) o2 (LEvent.sleep :: tr2)).1
        simp only [h1]
        simpa [deleteDiscipline, deleteLocal] using ihx2.2.1
      · rw [hrun]
        have h1 := (hp.2.1 (by simp) o2 (LEvent.sleep :: tr2)).2
        simp only [h1]
        simpa [flagDiscipline, flagLocal] using ihx2.2.2.1
      · intro t ht
        rw [hrun]
        have hra := (hp.1 hns).2 t ht
        have h1 := renewDiscipline_append t tr (LEvent.sleep :: tr2) hra
        simp only [h1]
        simpa [renewDiscipline, renewLocal] using ihx2.2.2.2 t ht

/-- Every session `waitForSession` creates is destroyed before the loop
ends or retries. -/
theorem waitForSessionRun_closed :
    ∀ fuel cs, (waitForSessionRun fuel cs).1 ≠ .stuck →
      sessionsClosed (waitForSessionRun fuel cs).2 = true := by
  intro fuel
  induction fuel with
  | zero =>
    intro cs h
    simp [waitForSessionRun] at h
  | succ fuel ih =>
    intro cs h
    cases cs with
    | nil => simp [waitForSessionRun] at h
    | cons c cs2 =>
      cases c with
      | error ec =>
        rcases hrec : waitForSessionRun fuel cs2 with ⟨o2, tr2⟩
        have hrun : waitForSessionRun (fuel + 1) (Except.error ec :: cs2) =
            (o2, .createSession (.error ec) :: .sleep :: tr2) := by
          simp [waitForSessionRun, hrec]
        rw [hrun]
        have ho2 : o2 ≠ .stuck := by
          intro hcon
          rw [hrun] at h
          simp [hcon] at h
        have ihx := ih cs2
        rw [hrec] at ihx
        simpa [sessionsClosed] using ihx (by simpa using ho2)
      | ok sid =>
        simp [waitForSessionRun, sessionsClosed, destroyBeforeNextCreate]

/-! ## Theorems: locked_action claims -/

/-- C1: in every completed `locked_action` run, on every exit from the
action (normal return or raised error) the lock key is deleted with `cas`
equal to the index captured by the non-blocking read performed immediately
after acquisition; and when that delete reports false the run ends
immediately — after only the session destruction — by raising the fatal
deletion error, rather than retrying or continuing. -/
theorem locked_action_release_cas (ttl : Option Nat) (oF aF : Nat) (s : LScript)
    (h : (lockedActionRun ttl oF aF s).1 ≠ .stuck) :
    deleteDiscipline (lockedActionRun ttl oF aF s).1
      (lockedActionRun ttl oF aF s).2 = true :=
  (lockedActionRun_props ttl oF aF s h).2.1

/-- Witness for C1 at a concrete script: a full successful run passes the
release-discipline checker. -/
theorem locked_action_release_cas_witness :
    deleteDiscipline (lockedActionRun (some 10) 1 1 lockScriptOk).1
      (lockedActionRun (some 10) 1 1 lockScriptOk).2 = true :=
  locked_action_release_cas (some 10) 1 1 lockScriptOk (by decide)

/-- C2: in every completed run of `locked_action` and of `waitForSession`,
every session that was successfully created is destroyed before the next
session is created and before the run returns or lets an error propagate —
in particular, on a transient store error the session created before the
error is destroyed before the loop retries with a fresh session. -/
theorem sessions_always_destroyed (ttl : Option Nat) (oF aF : Nat) (s : LScript)
    (wFuel : Nat) (ws : List (Except StoreErr Nat))
    (h1 : (lockedActionRun ttl oF aF s).1 ≠ .stuck)
    (h2 : (waitForSessionRun wFuel ws).1 ≠ .stuck) :
    sessionsClosed (lockedActionRun ttl oF aF s).2 = true ∧
      sessionsClosed (waitForSessionRun wFuel ws).2 = true :=
  ⟨(lockedActionRun_props ttl oF aF s h1).1, waitForSessionRun_closed wFuel ws h2⟩

/-- Witness for C2 at concrete scripts: a `locked_action` run that retries
once after a transient action error, and a `waitForSession` run that
retries once after a transient create error, both close every session. -/
theorem sessions_always_destroyed_witness :
    sessionsClosed (lockedActionRun none 2 1 lockScriptRetry).2 = true ∧
      sessionsClosed (waitForSessionRun 2 [.error .connErr, .ok 5]).2 = true :=
  sessions_always_destroyed none 2 1 lockScriptRetry 2 [.error .connErr, .ok 5]
    (by decide) (by decide)

/-- C3: in every completed `locked_action` run, every lock-acquisition put
writes the reserved flags constant `0x2ddccbc058a50c18`, and a blocking read
that finds a record with different flags makes the run fail immediately and
fatally with the mismatch error, without writing to or deleting that record
(only the session destruction follows) — except that a transient error in
the session renewal performed between the read and the check preempts the
check and retries, as the spec's transient-error rule prescribes. -/
theorem locked_action_flag_constant (ttl : Option Nat) (oF aF : Nat) (s : LScript)
    (h : (lockedActionRun ttl oF aF s).1 ≠ .stuck) :
    flagDiscipline (lockedActionRun ttl oF aF s).1
      (lockedActionRun ttl oF aF s).2 = true :=
  (lockedActionRun_props ttl oF aF s h).2.2.1

/-- Witness for C3 at a concrete script: a run that finds a foreign-flags
record raises the fatal mismatch error and passes the flag checker. -/
theorem locked_action_flag_constant_witness :
    (lockedActionRun none 1 1
        { creates := [.ok 1],
          gets := [.ok (5, some { flags := 7, session := none, value := "x" })],
          renews := [], puts := [], deletes := [], acts := [] }).1 =
      .raised (.fatal lockMismatchMsg) ∧
    flagDiscipline
      (lockedActionRun none 1 1
        { creates := [.ok 1],
          gets := [.ok (5, some { flags := 7, session := none, value := "x" })],
          renews := [], puts := [], deletes := [], acts := [] }).1
      (lockedActionRun none 1 1
        { creates := [.ok 1],
          gets := [.ok (5, some { flags := 7, session := none, value := "x" })],
          renews := [], puts := [], deletes := [], acts := [] }).2 = true :=
  ⟨by decide,
    locked_action_flag_constant none 1 1
      { creates := [.ok 1],
        gets := [.ok (5, some { flags := 7, session := none, value := "x" })],
        renews := [], puts := [], deletes := [], acts := [] } (by decide)⟩

/-- C5: in every completed `locked_action` run with a session TTL `t` set
(in deciseconds, `t > 0`), every blocking read of the acquisition loop uses
the wait timeout `t * 8 / 10` — strictly shorter than the TTL — and every
such read that completes is immediately followed by a session renewal, so
the session cannot expire while the loop waits for the lock. -/
theorem locked_action_wait_renews (t : Nat) (ht : 0 < t) (oF aF : Nat) (s : LScript)
    (h : (lockedActionRun (some t) oF aF s).1 ≠ .stuck) :
    renewDiscipline t (lockedActionRun (some t) oF aF s).2 = true ∧
      t * 8 / 10 < t :=
  ⟨(lockedActionRun_props (some t) oF aF s h).2.2.2 t rfl, by omega⟩

/-- Witness for C5 at a concrete script with TTL 10 deciseconds: the wait
used is 8 deciseconds and a renewal follows the read. -/
theorem locked_action_wait_renews_witness :
    renewDiscipline 10 (lockedActionRun (some 10) 1 1 lockScriptOk).2 = true ∧
      10 * 8 / 10 < 10 :=
  locked_action_wait_renews 10 (by decide) 1 1 lockScriptOk (by decide)

/-- C10: a transient store error raised while the action runs, or during
the release delete, makes `locked_action` destroy its session, sleep, and
restart the entire acquire/run/release cycle with a fresh session, so a
single call may execute the action body more than once — execution is not
at-most-once.  First run: the action itself raises
`consul.ConsulException`; the trace shows release, session destruction,
the retry sleep, a fresh session, and a second action execution.  Second
run: the action *returns normally* but the release delete raises a
connection error; the action still runs twice. -/
theorem locked_action_not_at_most_once :
    lockedActionRun none 2 1 lockScriptRetry =
      (.ret 42,
        [.createSession (.ok 1),
          .getBlocking none none (.ok (5, none)),
          .putAcquire 1 lockFlagValue (.ok true),
          .acqIdxGet (.ok (6, none)),
          .runAction 1 (.error (.transient .consulErr)),
          .deleteLock 6 (.ok true),
          .destroySession 1,
          .sleep,
          .createSession (.ok 2),
          .getBlocking none none (.ok (8, none)),
          .putAcquire 2 lockFlagValue (.ok true),
          .acqIdxGet (.ok (9, none)),
          .runAction 2 (.ok 42),
          .deleteLock 9 (.ok true),
          .destroySession 2]) ∧
    ((lockedActionRun none 2 1 lockScriptRetry).2.filter isRunActionEv).length = 2 ∧
    (lockedActionRun none 2 1 lockScriptRetryDel).1 = .ret 42 ∧
    ((lockedActionRun none 2 1 lockScriptRetryDel).2.filter isRunActionEv).length = 2 := by
  refine ⟨by decide, by decide, by decide, by decide⟩

/-! ## Theorems: mutual exclusion (C4) -/

/-- Invariant: a client that is running the action body is the session
holder recorded at the lock key, at its captured acquisition index. -/
theorem running_holds (n : Nat) :
    ∀ cfg, LockReachable n cfg →
      ∀ i a, cfg.phase i = .running a →
        ∃ r, cfg.store.record = some r ∧ r.session = some i.val ∧ r.modifyIndex = a := by
  intro cfg hreach
  induction hreach with
  | init =>
    intro i a hi
    simp [lockInit] at hi
  | step hr hstep ih =>
    cases hstep with
    | acquire j hj hfree =>
      intro i a hi
      dsimp only at hi ⊢
      by_cases hij : i = j
      · subst hij
        rw [Function.update_same] at hi
        injection hi with h
        subst h
        exact ⟨_, rfl, rfl, rfl⟩
      · rw [Function.update_noteq hij] at hi
        obtain ⟨r, hrec, hsess, _⟩ := ih i a hi
        rw [hfree r hrec] at hsess
        cases hsess
    | acquireFail j r hj hrec hsess =>
      intro i a hi
      exact ih i a hi
    | release j a0 r hj hrec hcas =>
      intro i a hi
      dsimp only at hi ⊢
      by_cases hij : i = j
      · subst hij
        rw [Function.update_same] at hi
        simp at hi
      · rw [Function.update_noteq hij] at hi
        obtain ⟨ri, hreci, hsessi, _⟩ := ih i a hi
        obtain ⟨rj, hrecj, hsessj, _⟩ := ih j a0 hj
        rw [hreci] at hrecj
        cases hrecj
        rw [hsessi] at hsessj
        have hv : i.val = j.val := by
          injection hsessj
        exact absurd (Fin.val_injective hv) hij
    | releaseFail j a0 hj hnocas =>
      intro i a hi
      dsimp only at hi ⊢
      by_cases hij : i = j
      · subst hij
        rw [Function.update_same] at hi
        simp at hi
      · rw [Function.update_noteq hij] at hi
        exact ih i a hi

/-- C4: among any number of concurrent `locked_action` clients contending
for the same key, at most one client is executing the action body at any
time — any two clients simultaneously in the running phase are equal. -/
theorem locked_action_mutual_exclusion (n : Nat) (cfg : LockConfig n)
    (hreach : LockReachable n cfg) (i j : Fin n) (a b : Nat)
    (hi : cfg.phase i = .running a) (hj : cfg.phase j = .running b) : i = j := by
  obtain ⟨r1, hr1, hs1, _⟩ := running_holds n cfg hreach i a hi
  obtain ⟨r2, hr2, hs2, _⟩ := running_holds n cfg hreach j b hj
  rw [hr1] at hr2
  cases hr2
  rw [hs1] at hs2
  have : i.val = j.val := by
    injection hs2
  exact Fin.val_injective this

/-- Witness for C4 at a concrete two-client configuration in which client 0
acquired the lock and is running: the theorem applies with all hypotheses
discharged. -/
theorem locked_action_mutual_exclusion_witness : (0 : Fin 2) = (0 : Fin 2) :=
  locked_action_mutual_exclusion 2 _
    (LockReachable.step LockReachable.init
      (LockStep.acquire (lockInit 2) 0 rfl (fun r hr => by simp [lockInit] at hr)))
    0 0 1 1 (by simp [lockInit, Function.update]) (by simp [lockInit, Function.update])
